import Mathlib

/-!
Shallow embedding of the `scrypted-basic-object-detector` core: the geometry
kernel, pre-filter pipeline (`src/util.ts`), and the per-session
`ObjectTracker` (the variant in `src/main.ts` with per-class settings:
`matchWithActiveTracks`, `processWithIOU`, `buildActiveTracks`, `update`),
plus the audio helper `getDecibelsFromRtp_PCMU8`.

Modelling conventions:
* JavaScript numbers are embedded as `ℚ` (the algorithms only add, multiply,
  divide and compare; the one `NaN`-producing division in `calculateIoU` is
  made explicit by an `Option ℚ` result, `none` standing for `NaN`).
* A possibly-`undefined` value is an `Option`.
* Code that can throw a `TypeError` (destructuring or indexing `undefined`)
  returns `Except String`.
* `Math.sqrt` appears only inside the comparison
  `distance >= movementThreshold`; for `d2 = distance²` this comparison is
  embedded as the equivalent rational test `t ≤ 0 ∨ t² ≤ d2`, so the tracker
  stays computable.  The audio path (`Real.sqrt`, `Real.logb`) uses `ℝ`.
-/

/-- JavaScript truthiness of an optional number: `undefined`, `NaN` and `0`
are falsy. -/
def jsFalsyQ : Option ℚ → Bool
  | none => true
  | some q => decide (q = 0)

/-- JavaScript `a <= b` where either side may be `undefined`/`NaN`
(any comparison involving them is `false`). -/
def jsLeOpt : Option ℚ → Option ℚ → Bool
  | some a, some b => decide (a ≤ b)
  | _, _ => false

/-- JavaScript `a > b` where the left side is a number and the right side may
be `undefined`/`NaN`. -/
def jsGtQOpt (a : ℚ) : Option ℚ → Bool
  | some b => decide (b < a)
  | none => false

/-- JavaScript `a > b` where both sides may be `undefined`/`NaN`. -/
def jsGtOptOpt : Option ℚ → Option ℚ → Bool
  | some a, b => jsGtQOpt a b
  | none, _ => false

/-- JavaScript `a >= b` for a natural `a` (a hit counter) against an optional
number `b`: `a >= undefined` is `false`. -/
def jsGeNatOpt (a : ℕ) : Option ℚ → Bool
  | some b => decide (b ≤ (a : ℚ))
  | none => false

/-- JavaScript `Math.sqrt d2 >= t` for `d2 ≥ 0`, with `t` possibly
`undefined`: equivalent to `t ≤ 0 ∨ t² ≤ d2`. -/
def jsSqrtGeOpt (d2 : ℚ) : Option ℚ → Bool
  | some t => decide (t ≤ 0) || decide (t ^ 2 ≤ d2)
  | none => false

/-- `Set.add`: JavaScript `Set` insertion (first occurrence kept). -/
def setAdd (l : List String) (x : String) : List String :=
  if x ∈ l then l else l ++ [x]

/-- Build a JavaScript `Set` from a list, keeping first occurrences. -/
def jsSetOfList {α : Type} [DecidableEq α] (l : List α) : List α :=
  l.foldl (fun acc x => if x ∈ acc then acc else acc ++ [x]) []

/-- A bounding box `[x, y, w, h]` (`src/util.ts`, `BoundingBox`). -/
structure Box where
  x : ℚ
  y : ℚ
  w : ℚ
  h : ℚ
deriving DecidableEq, Repr

/-- `width * height` of a box, as computed by `calculateIoU`. -/
def boxArea (b : Box) : ℚ := b.w * b.h

/-- `calculateIoU` (`src/util.ts` lines 39-67): intersection-over-union of
two `[x,y,w,h]` boxes.  The JavaScript code computes
`intersectionArea / unionArea` as a float; the division produces `NaN`
exactly when `unionArea = 0` (which forces `intersectionArea = 0`),
modelled by `none`. -/
def calculateIoU (box1 box2 : Box) : Option ℚ :=
  let x1 := max box1.x box2.x
  let y1 := max box1.y box2.y
  let x2 := min (box1.x + box1.w) (box2.x + box2.w)
  let y2 := min (box1.y + box1.h) (box2.y + box2.h)
  let intersectionArea := max 0 (x2 - x1) * max 0 (y2 - y1)
  let unionArea := boxArea box1 + boxArea box2 - intersectionArea
  if unionArea = 0 then none else some (intersectionArea / unionArea)

/-- A detection's `history` field. -/
structure History where
  firstSeen : ℚ
  lastSeen : ℚ
deriving DecidableEq, Repr

/-- A track's `movement` record. -/
structure Movement where
  firstSeen : Option ℚ
  lastSeen : Option ℚ
  moving : Bool
deriving DecidableEq, Repr

/-- `ObjectDetectionResult`: one detection, input or output.  `boundingBox`,
`label`, `id`, `movement` and `history` can all be `undefined`. -/
structure Det where
  className : String
  score : ℚ
  boundingBox : Option Box := none
  label : Option String := none
  id : Option String := none
  movement : Option Movement := none
  history : Option History := none
deriving DecidableEq, Repr

/-- The per-class keys of `session.settings` read by the tracker
(`getClassnameSettings` builds the string keys `{className}-minScore`,
`{className}-minConfirmationFrames`, `{className}-iouThreshold`,
`{className}-movementThreshold`; a lookup of an absent key yields
`undefined`, i.e. `none`), together with `enabledClasses`. -/
structure TrackSettings where
  enabledClasses : Option (List String)
  minScore : String → Option ℚ
  minConfirmationFrames : String → Option ℚ
  iouThreshold : String → Option ℚ
  movementThreshold : String → Option ℚ

/-- Indexing `this.session.settings[key]`: throws a `TypeError` when
`settings` itself is `undefined`, otherwise yields the (possibly absent)
value. -/
def jsIndexSettings (s : Option TrackSettings) (f : TrackSettings → Option ℚ) :
    Except String (Option ℚ) :=
  match s with
  | none => .error "TypeError: settings is undefined"
  | some st => .ok (f st)

/-- `filterLargeDetections` (`src/util.ts` lines 136-150) keeps a detection
iff `boxArea / imageArea < threshold`.  Destructuring
`det.boundingBox` throws when the box is missing.  When `imageArea = 0` the
float division gives `±Infinity`/`NaN`; `boxRatio < threshold` then holds
exactly when `boxArea < 0` (threshold is a finite positive number). -/
def jsRatioLt (boxA imageA threshold : ℚ) : Bool :=
  if imageA = 0 then decide (boxA < 0) else decide (boxA / imageA < threshold)

/-- One step of `filterLargeDetections`' filter callback. -/
def largeKeep (imageA threshold : ℚ) (det : Det) : Except String Bool :=
  match det.boundingBox with
  | none => .error "TypeError: det.boundingBox is not iterable"
  | some b => .ok (jsRatioLt (boxArea b) imageA threshold)

/-- Effectful `Array.prototype.filter`, evaluating the predicate left to
right and propagating the first thrown error. -/
def exceptFilter {α : Type} (p : α → Except String Bool) :
    List α → Except String (List α)
  | [] => .ok []
  | d :: ds =>
    match p d with
    | .error e => .error e
    | .ok b =>
      match exceptFilter p ds with
      | .error e => .error e
      | .ok r => .ok (if b then d :: r else r)

/-- `filterLargeDetections` (`src/util.ts` lines 136-150). -/
def filterLargeDetections (detections : List Det) (inputDimensions : ℚ × ℚ)
    (threshold : ℚ := 95 / 100) : Except String (List Det) :=
  let imageArea := inputDimensions.1 * inputDimensions.2
  exceptFilter (largeKeep imageArea threshold) detections

/-- `filterBySettings` (`src/util.ts` lines 106-134).  With `settings`
present but `enabledClasses` absent, `enabledClasses.includes` throws on the
first detection (the empty list is caught by the leading guard).
`!scoreThreshold` keeps the detection when the per-class `minScore` is
absent or `0`. -/
def filterBySettings (detections : List Det) (s : Option TrackSettings) :
    Except String (List Det) :=
  if detections.isEmpty then .ok []
  else
    match s with
    | none => .ok detections
    | some st =>
      match st.enabledClasses with
      | none => .error "TypeError: enabledClasses is undefined"
      | some enabled =>
        .ok (detections.filter fun det =>
          decide (det.className ∈ enabled) &&
          (match st.minScore det.className with
           | none => true
           | some thr => if thr = 0 then true else !decide (det.score < thr)))

/-- The comparator step of `[...detections].sort((a, b) => b.score - a.score)`:
`d` goes strictly before `x` iff `d.score > x.score`. -/
def scoreBefore (d x : Det) : Bool := decide (x.score < d.score)

/-- Stable insertion used to model JavaScript's (specified-stable)
`Array.prototype.sort`. -/
def insertSorted {α : Type} (lt : α → α → Bool) (d : α) : List α → List α
  | [] => [d]
  | x :: xs => if lt d x then d :: x :: xs else x :: insertSorted lt d xs

/-- Stable sort by a strict "goes before" comparator (elements are inserted
in input order, each placed after every earlier element it does not strictly
precede). -/
def stableSortBy {α : Type} (lt : α → α → Bool) (l : List α) : List α :=
  l.foldl (fun acc d => insertSorted lt d acc) []

/-- `[...detections].sort((a, b) => b.score - a.score)`: score-descending,
stable. -/
def sortByScoreDesc (l : List Det) : List Det := stableSortBy scoreBefore l

/-- The NMS keep-predicate of `filterOverlappedDetections` (`src/util.ts`
lines 82-97): a later detection of the same class is kept iff
`iou <= iouThreshold` (which is `false` when the IoU is `NaN` or the
per-class threshold is absent).  `calculateIoU` throws when either bounding
box is missing. -/
def nmsKeep (s : Option TrackSettings) (currentDetection det : Det) :
    Except String Bool :=
  if det.className = currentDetection.className then
    let iouThreshold : Option ℚ :=
      match s with
      | none => some (1 / 2)
      | some st => st.iouThreshold currentDetection.className
    match currentDetection.boundingBox, det.boundingBox with
    | some b1, some b2 => .ok (jsLeOpt (calculateIoU b1 b2) iouThreshold)
    | _, _ => .error "TypeError: boundingBox is undefined"
  else .ok true

/-- The `while` loop of `filterOverlappedDetections`: repeatedly take the
head as kept and drop the later same-class detections that overlap it too
much.  `fuel` bounds the recursion; `fuel = length` always suffices because
each round consumes the head and filters the rest. -/
def nmsLoopF (s : Option TrackSettings) : ℕ → List Det → Except String (List Det)
  | _, [] => .ok []
  | 0, _ :: _ => .ok []
  | fuel + 1, currentDetection :: rest =>
    match exceptFilter (nmsKeep s currentDetection) rest with
    | .error e => .error e
    | .ok remaining =>
      match nmsLoopF s fuel remaining with
      | .error e => .error e
      | .ok r => .ok (currentDetection :: r)

/-- `filterOverlappedDetections` (`src/util.ts` lines 69-104): class-aware
non-maximum suppression over the score-descending sort of the input. -/
def filterOverlappedDetections (detections : List Det)
    (s : Option TrackSettings) : Except String (List Det) :=
  if detections.isEmpty then .ok []
  else
    let sorted := sortByScoreDesc detections
    nmsLoopF s sorted.length sorted

/-- `prefilterDetections` (`src/util.ts` lines 152-165): oversize filter,
then class/score filter, then NMS. -/
def prefilterDetections (detections : List Det) (inputDimensions : ℚ × ℚ)
    (s : Option TrackSettings) : Except String (List Det) := do
  let large ← filterLargeDetections detections inputDimensions
  let bySettings ← filterBySettings large s
  filterOverlappedDetections bySettings s

/-- The base-36 digit characters used by JavaScript's
`Number.prototype.toString(36)`: `0`-`9` then `a`-`z`. -/
def digit36 (d : ℕ) : Char :=
  if d < 10 then Char.ofNat (48 + d) else Char.ofNat (87 + d)

/-- Digits of `n` in base 36, most significant first.  `fuel ≥ n` always
suffices since the recursion divides by 36. -/
def toString36Digits : ℕ → ℕ → List Char
  | 0, n => [digit36 (n % 36)]
  | fuel + 1, n =>
    if n < 36 then [digit36 n]
    else toString36Digits fuel (n / 36) ++ [digit36 (n % 36)]

/-- `n.toString(36)` for a natural number `n` (track ids are produced by
`(this.nextTrackId++).toString(36)`). -/
def toString36 (n : ℕ) : String := ⟨toString36Digits n n⟩

/-- Inverse of `digit36`, used only to prove `toString36` injective. -/
def ofDigit36 (c : Char) : ℕ :=
  if c.toNat < 97 then c.toNat - 48 else c.toNat - 87

/-- Base-36 decoding, used only to prove `toString36` injective. -/
def decode36 (l : List Char) : ℕ := l.foldl (fun acc c => acc * 36 + ofDigit36 c) 0

/-- A `TrackedObject` (`src/main.ts`): a detection plus tracking state.  The
source's defensive `if (!track.movement)` re-initialisation never fires for
tracker-created tracks, so `movement` is carried as a plain field. -/
structure TrackedObject where
  id : String
  className : String
  score : ℚ
  boundingBox : Option Box
  label : Option String
  history : Option History := none
  hits : ℕ
  misses : ℕ
  lostFrames : ℕ
  active : Bool
  movement : Movement
deriving DecidableEq, Repr

/-- Insertion-ordered string-keyed map, as JavaScript's `Map`. -/
abbrev TrackMap := List (String × TrackedObject)

/-- `Map.get`. -/
def mapGet : TrackMap → String → Option TrackedObject
  | [], _ => none
  | (k', v) :: rest, k => if k' = k then some v else mapGet rest k

/-- `Map.set`: replaces in place, else appends (JavaScript `Map` keeps the
original insertion position on overwrite). -/
def mapSet : TrackMap → String → TrackedObject → TrackMap
  | [], k, v => [(k, v)]
  | (k', v') :: rest, k, v =>
    if k' = k then (k, v) :: rest else (k', v') :: mapSet rest k v

/-- `Map.delete`. -/
def mapDelete : TrackMap → String → TrackMap
  | [], _ => []
  | (k', v') :: rest, k =>
    if k' = k then mapDelete rest k else (k', v') :: mapDelete rest k

/-- The loop of `matchWithActiveTracks` (`src/main.ts` lines 285-302),
carrying `(bestMatch, bestIOU)`.  A track is skipped on class mismatch;
otherwise `calculateIoU` may throw (missing box), the per-class
`iouThreshold` is read from settings (throws when settings is `undefined`),
and the running best is replaced iff `iou > iouThreshold && iou > bestIOU`
(`false` whenever the IoU is `NaN` or the threshold absent). -/
def matchActiveLoop (s : Option TrackSettings) (det : Det) :
    TrackMap → Option String → ℚ → Except String (Option String)
  | [], bestMatch, _ => .ok bestMatch
  | (trackId, track) :: rest, bestMatch, bestIOU =>
    if track.className = det.className then
      match det.boundingBox, track.boundingBox with
      | some db, some tb =>
        match jsIndexSettings s (fun st => st.iouThreshold track.className) with
        | .error e => .error e
        | .ok iouThreshold =>
          match calculateIoU db tb with
          | some iou =>
            if jsGtQOpt iou iouThreshold && decide (bestIOU < iou) then
              matchActiveLoop s det rest (some trackId) iou
            else matchActiveLoop s det rest bestMatch bestIOU
          | none => matchActiveLoop s det rest bestMatch bestIOU
      | _, _ => .error "TypeError: boundingBox is undefined"
    else matchActiveLoop s det rest bestMatch bestIOU

/-- `matchWithActiveTracks` (`src/main.ts` lines 285-302): best-IoU match of
a detection against all current tracks, ignoring this frame's assignments. -/
def matchWithActiveTracks (s : Option TrackSettings) (tracks : TrackMap)
    (det : Det) : Except String (Option String) :=
  matchActiveLoop s det tracks none 0

/-- The loop of `matchWithLostTracks` (`src/main.ts` lines 324-341): the
running best starts at the (possibly absent) per-class threshold, so a
match requires `iou > iouThreshold` strictly, and an absent threshold means
no lost track ever matches. -/
def matchLostLoop (det : Det) :
    TrackMap → Option String → Option ℚ → Except String (Option String)
  | [], bestMatchId, _ => .ok bestMatchId
  | (id, track) :: rest, bestMatchId, bestIOU =>
    if track.className = det.className then
      match det.boundingBox, track.boundingBox with
      | some db, some tb =>
        match calculateIoU db tb with
        | some iou =>
          if jsGtOptOpt (some iou) bestIOU then
            matchLostLoop det rest (some id) (some iou)
          else matchLostLoop det rest bestMatchId bestIOU
        | none => matchLostLoop det rest bestMatchId bestIOU
      | _, _ => .error "TypeError: boundingBox is undefined"
    else matchLostLoop det rest bestMatchId bestIOU

/-- `matchWithLostTracks` (`src/main.ts` lines 324-341). -/
def matchWithLostTracks (s : Option TrackSettings) (lostTracks : TrackMap)
    (det : Det) : Except String (Option String) :=
  match jsIndexSettings s (fun st => st.iouThreshold det.className) with
  | .error e => .error e
  | .ok iouThreshold => matchLostLoop det lostTracks none iouThreshold

/-- The mutable association state threaded through `processWithIOU`
(`src/main.ts` lines 437-561). -/
structure AssocState where
  tracks : TrackMap
  lostTracks : TrackMap
  nextTrackId : ℕ
  assignedTracks : List String
  updatedTrackIds : List String
  newlyConfirmedIds : List String

/-- Squared centroid distance (`getCentroid` / `distance`, `src/main.ts`
lines 277-279 and 689-691); `getCentroid` throws on a missing box.  The
source compares `Math.sqrt` of this value against `movementThreshold`
(see `jsSqrtGeOpt`). -/
def centroidDist2 : Option Box → Option Box → Except String ℚ
  | some ob, some nb =>
    .ok (((ob.x + ob.w / 2) - (nb.x + nb.w / 2)) ^ 2 +
         ((ob.y + ob.h / 2) - (nb.y + nb.h / 2)) ^ 2)
  | _, _ => .error "TypeError: boundingBox is undefined"

/-- The in-place field updates shared by the matched-active-track branch of
`processWithIOU` (`src/main.ts` lines 463-471): copy the detection's
fields, bump `hits`, clear `misses`, keep `active` sticky via
`track.active || track.hits >= minConfirmations`, and refresh `movement`. -/
def matchedTrackUpdate (now : ℚ) (mc mt : Option ℚ) (det : Det)
    (track : TrackedObject) (d2 : ℚ) : TrackedObject :=
  { track with
    boundingBox := det.boundingBox, className := det.className,
    label := det.label, score := det.score,
    hits := track.hits + 1, misses := 0,
    active := track.active || jsGeNatOpt (track.hits + 1) mc,
    movement := { track.movement with
      lastSeen := some now, moving := jsSqrtGeOpt d2 mt } }

/-- The in-place field updates of the revived-lost-track branch
(`src/main.ts` lines 497-506): as `matchedTrackUpdate` but `active` is
recomputed from scratch as `track.hits >= minConfirmations` and
`lostFrames` is reset. -/
def revivedTrackUpdate (now : ℚ) (mc mt : Option ℚ) (det : Det)
    (track : TrackedObject) (d2 : ℚ) : TrackedObject :=
  { track with
    boundingBox := det.boundingBox, className := det.className,
    label := det.label, score := det.score,
    hits := track.hits + 1, misses := 0,
    active := jsGeNatOpt (track.hits + 1) mc,
    lostFrames := 0,
    movement := { track.movement with
      lastSeen := some now, moving := jsSqrtGeOpt d2 mt } }

/-- The confirmation check `!track.active && (track.hits >= minConfirmations
|| !minConfirmations)` (`src/main.ts` lines 473 and 508), evaluated after
the in-place update. -/
def confirmFire (mc : Option ℚ) (t : TrackedObject) : Bool :=
  !t.active && (jsGeNatOpt t.hits mc || jsFalsyQ mc)

/-- Apply the confirmation check: set `active` when it fires. -/
def finishTrack (mc : Option ℚ) (t : TrackedObject) : TrackedObject :=
  if confirmFire mc t then { t with active := true } else t

/-- The matched-active-track branch of `processWithIOU` (`src/main.ts`
lines 450-482): update the track in place from the detection, then run the
(partly dead) confirmation check. -/
def applyActiveMatch (now : ℚ) (mc mt : Option ℚ) (det : Det)
    (a : AssocState) (matchId : String) : Except String AssocState :=
  match mapGet a.tracks matchId with
  | none => .ok a
  | some track =>
    match centroidDist2 track.boundingBox det.boundingBox with
    | .error e => .error e
    | .ok d2 =>
      let track1 := matchedTrackUpdate now mc mt det track d2
      .ok { a with
        tracks := mapSet a.tracks matchId (finishTrack mc track1),
        assignedTracks := setAdd a.assignedTracks matchId,
        updatedTrackIds := setAdd a.updatedTrackIds matchId,
        newlyConfirmedIds :=
          if confirmFire mc track1 then setAdd a.newlyConfirmedIds track1.id
          else a.newlyConfirmedIds }

/-- The revived-lost-track branch of `processWithIOU` (`src/main.ts` lines
485-520): `track.active` is recomputed from scratch as
`hits >= minConfirmations`, the track moves back into `tracks` keyed by its
`id`, and is deleted from `lostTracks`. -/
def applyLostMatch (now : ℚ) (mc mt : Option ℚ) (det : Det)
    (a : AssocState) (lostMatchId : String) : Except String AssocState :=
  match mapGet a.lostTracks lostMatchId with
  | none => .ok a
  | some track =>
    match centroidDist2 track.boundingBox det.boundingBox with
    | .error e => .error e
    | .ok d2 =>
      let track1 := revivedTrackUpdate now mc mt det track d2
      .ok { a with
        tracks := mapSet a.tracks track1.id (finishTrack mc track1),
        lostTracks := mapDelete a.lostTracks track1.id,
        assignedTracks := setAdd a.assignedTracks lostMatchId,
        updatedTrackIds := setAdd a.updatedTrackIds lostMatchId,
        newlyConfirmedIds :=
          if confirmFire mc track1 then setAdd a.newlyConfirmedIds track1.id
          else a.newlyConfirmedIds }

/-- The fresh track object of the new-track branch (`src/main.ts` lines
525-550): one hit, Pending, unless the instant-confirmation condition
`!minConfirmations || minConfirmations <= 1` makes it Active at once. -/
def newTrack (now : ℚ) (mc : Option ℚ) (det : Det) (newId : String) :
    TrackedObject :=
  let base : TrackedObject :=
    { id := newId, boundingBox := det.boundingBox, className := det.className,
      label := det.label, score := det.score,
      hits := 1, misses := 0, lostFrames := 0, active := false,
      movement := { firstSeen := some now, lastSeen := none, moving := false } }
  if jsFalsyQ mc || jsLeOpt mc (some 1) then { base with active := true }
  else base

/-- The new-track branch of `processWithIOU` (`src/main.ts` lines 522-553):
allocate `(nextTrackId++).toString(36)`, start Pending, and confirm
instantly when `!minConfirmations || minConfirmations <= 1` (in which case
the new id also enters `assignedTracks` and `newlyConfirmedIds`). -/
def createTrack (now : ℚ) (mc : Option ℚ) (det : Det) (a : AssocState) :
    AssocState :=
  let newId := toString36 a.nextTrackId
  let instant := jsFalsyQ mc || jsLeOpt mc (some 1)
  { a with
    tracks := mapSet a.tracks newId (newTrack now mc det newId),
    nextTrackId := a.nextTrackId + 1,
    assignedTracks :=
      if instant then setAdd a.assignedTracks newId else a.assignedTracks,
    newlyConfirmedIds :=
      if instant then setAdd a.newlyConfirmedIds newId
      else a.newlyConfirmedIds,
    updatedTrackIds := setAdd a.updatedTrackIds newId }

/-- The lost-pool-then-new-track tail of one `processWithIOU` iteration
(`src/main.ts` lines 485-553), reached when there is no usable active-track
match. -/
def tryLostThenNew (s : Option TrackSettings) (now : ℚ) (mc mt : Option ℚ)
    (det : Det) (a : AssocState) : Except String AssocState :=
  match matchWithLostTracks s a.lostTracks det with
  | .error e => .error e
  | .ok lostMatchId =>
    match lostMatchId with
    | some lid =>
      if lid ∈ a.assignedTracks then .ok (createTrack now mc det a)
      else applyLostMatch now mc mt det a lid
    | none => .ok (createTrack now mc det a)

/-- One iteration of the `for (const det of detections)` loop of
`processWithIOU` (`src/main.ts` lines 443-554).  The best active-track
match is computed over all tracks; if it exists but is already assigned
this frame, the detection falls through to the lost pool (and then to a new
track) instead of trying the next-best unassigned track. -/
def processOneDet (s : Option TrackSettings) (now : ℚ) (a : AssocState)
    (det : Det) : Except String AssocState :=
  match matchWithActiveTracks s a.tracks det with
  | .error e => .error e
  | .ok matchId =>
    match jsIndexSettings s (fun st => st.minConfirmationFrames det.className) with
    | .error e => .error e
    | .ok mc =>
      match jsIndexSettings s (fun st => st.movementThreshold det.className) with
      | .error e => .error e
      | .ok mt =>
        match matchId with
        | some tid =>
          if tid ∈ a.assignedTracks then tryLostThenNew s now mc mt det a
          else applyActiveMatch now mc mt det a tid
        | none => tryLostThenNew s now mc mt det a

/-- `processWithIOU` (`src/main.ts` lines 437-561). -/
def processWithIOU (s : Option TrackSettings) (now : ℚ) (tracks lostTracks : TrackMap)
    (nextTrackId : ℕ) (detections : List Det) : Except String AssocState :=
  detections.foldlM (processOneDet s now)
    { tracks := tracks, lostTracks := lostTracks, nextTrackId := nextTrackId,
      assignedTracks := [], updatedTrackIds := [], newlyConfirmedIds := [] }

/-- One iteration of the not-updated-tracks loop of `update` (`src/main.ts`
lines 641-652): an unmatched track gets `misses + 1`; at `maxMisses` it
moves to the lost pool (keyed by its `id`, with `lostFrames = 0`), otherwise
its `movement.moving` is cleared.  The accumulator rebuilds `tracks` in
order (deletion of the visited entry is safe during `Map` iteration). -/
def applyMissOne (maxMisses : ℕ) (updatedTrackIds : List String)
    (acc : TrackMap × TrackMap) (e : String × TrackedObject) :
    TrackMap × TrackMap :=
  if e.1 ∈ updatedTrackIds then (acc.1 ++ [e], acc.2)
  else
    let track : TrackedObject := { e.2 with misses := e.2.misses + 1 }
    if maxMisses ≤ track.misses then
      (acc.1, mapSet acc.2 track.id { track with lostFrames := 0 })
    else
      (acc.1 ++ [(e.1, { track with
        movement := { track.movement with moving := false } })], acc.2)

/-- The not-updated-tracks loop of `update` (`src/main.ts` lines 641-652). -/
def applyMisses (maxMisses : ℕ) (updatedTrackIds : List String)
    (tracks lostTracks : TrackMap) : TrackMap × TrackMap :=
  tracks.foldl (applyMissOne maxMisses updatedTrackIds) ([], lostTracks)

/-- One iteration of the lost-track cleanup loop of `update` (`src/main.ts`
lines 655-661): the lost track ages by one frame and is evicted once
`lostFrames > maxLostFrames`; kept tracks are rebuilt in order. -/
def cleanupLostStep (maxLostFrames : ℕ) (acc : TrackMap)
    (e : String × TrackedObject) : TrackMap :=
  let lostTrack : TrackedObject := { e.2 with lostFrames := e.2.lostFrames + 1 }
  if maxLostFrames < lostTrack.lostFrames then acc
  else acc ++ [(e.1, lostTrack)]

/-- The lost-track cleanup loop of `update` (`src/main.ts` lines 655-661). -/
def cleanupLost (maxLostFrames : ℕ) (lostTracks : TrackMap) : TrackMap :=
  lostTracks.foldl (cleanupLostStep maxLostFrames) []

/-- `addMotionEntries` (`src/main.ts` lines 563-576): one bare motion
sentinel when the list is empty, else one motion sentinel per detection,
copying its bounding box; the sentinels carry no `id`. -/
def addMotionEntries (detections : List Det) : List Det :=
  if detections.isEmpty then [{ className := "motion", score := 1 }]
  else detections.map fun det =>
    { className := "motion", score := 1, boundingBox := det.boundingBox }

/-- The output shape of a track in `buildActiveTracks`. -/
def trackOut (track : TrackedObject) : Det :=
  { className := track.className, score := track.score,
    boundingBox := track.boundingBox, movement := some track.movement,
    id := some track.id, label := track.label, history := track.history }

/-- `buildActiveTracks` (`src/main.ts` lines 578-597): split tracks into
`active`/`pending` output lists in insertion order, then append the motion
entries derived from `active`. -/
def buildActiveTracks (tracks : TrackMap) : List Det × List Det :=
  let parts := tracks.foldl
    (fun (ap : List Det × List Det) e =>
      if e.2.active then (ap.1 ++ [trackOut e.2], ap.2)
      else (ap.1, ap.2 ++ [trackOut e.2]))
    ([], [])
  (parts.1 ++ addMotionEntries parts.1, parts.2)

/-- The session state of one `ObjectTracker` (`src/main.ts` lines 243-275).
`session` holds `this.session.settings` (never written by the tracker);
`useMatrix` is constantly `false` in the source, so `update` is embedded
with the `processWithIOU` branch only. -/
structure TrackerState where
  maxMisses : ℕ := 5
  maxEmptyFrames : ℕ := 3
  lastDetectionId : Option ℚ := none
  tracks : TrackMap := []
  lostTracks : TrackMap := []
  lastActiveIds : List (Option String) := []
  nextTrackId : ℕ := 1
  maxLostFrames : ℕ := 50
  session : Option TrackSettings
  sessionId : String
  currentFrame : ℕ := 0
  emptyFrameCount : ℕ := 0
  lastActiveClasses : List String := []

/-- A freshly constructed `ObjectTracker` for a session. -/
def mkObjectTracker (sessionId : String) (settings : Option TrackSettings) :
    TrackerState :=
  { session := settings, sessionId := sessionId }

/-- The `detected: ObjectsDetected` argument of `update`: the detection
list may be absent (`detected.detections || []`). -/
structure Detected where
  detections : Option (List Det)
  inputDimensions : ℚ × ℚ

/-- The `{ active, pending, detectionId }` record returned by `update`. -/
structure FrameResult where
  active : List Det
  pending : List Det
  detectionId : Option String
deriving DecidableEq, Repr

/-- `getNewDetectionId` (`src/main.ts` lines 281-283). -/
def getNewDetectionId (st : TrackerState) : String :=
  st.sessionId ++ "-" ++ toString st.currentFrame

/-- `ObjectTracker.update` (`src/main.ts` lines 600-687): pre-filter, then
either the basic early return or association (`processWithIOU`; `useMatrix`
is constantly `false`), miss handling, lost-pool cleanup, output
construction and the scene-change check.  `now` stands for `Date.now()`.
The scene-change disjunct `!this.lastDetectionId` is truthiness, hence
`jsFalsyQ`. -/
def ObjectTracker.update (st : TrackerState) (detected : Detected)
    (basicDetectionsOnly : Bool) (now : ℚ) :
    Except String (FrameResult × TrackerState) :=
  let detectionsRaw := detected.detections.getD []
  let st0 := { st with emptyFrameCount := 0 }
  match prefilterDetections detectionsRaw detected.inputDimensions st0.session with
  | .error e => .error e
  | .ok detections =>
    if basicDetectionsOnly then
      .ok ({ active := detections ++ addMotionEntries detections,
             pending := [], detectionId := none },
           { st0 with currentFrame := st0.currentFrame + 1 })
    else
      match processWithIOU st0.session now st0.tracks st0.lostTracks
          st0.nextTrackId detections with
      | .error e => .error e
      | .ok a =>
        let ml := applyMisses st0.maxMisses a.updatedTrackIds a.tracks a.lostTracks
        let lost2 := cleanupLost st0.maxLostFrames ml.2
        let ap := buildActiveTracks ml.1
        let active := ap.1
        let pending := ap.2
        let activeClasses :=
          stableSortBy (fun a b : String => decide (a < b))
            (active.map (·.className))
        let currentActiveIds := jsSetOfList (active.map (·.id))
        let sceneChanged :=
          !a.newlyConfirmedIds.isEmpty ||
          (st0.lastActiveIds.isEmpty && !currentActiveIds.isEmpty) ||
          st0.lastActiveIds.any (fun id => !currentActiveIds.contains id) ||
          (!active.isEmpty &&
            (jsFalsyQ st0.lastDetectionId ||
             jsGtOptOpt (st0.lastDetectionId.map (fun last => now - last))
               (some (5 * 1000))))
        let detectionId :=
          if sceneChanged then some (getNewDetectionId st0) else none
        .ok ({ active := active, pending := pending, detectionId := detectionId },
             { st0 with
               tracks := ml.1, lostTracks := lost2,
               nextTrackId := a.nextTrackId,
               lastDetectionId :=
                 if detectionId.isSome then some now else st0.lastDetectionId,
               lastActiveIds := currentActiveIds,
               lastActiveClasses := activeClasses,
               currentFrame := st0.currentFrame + 1 })

/-- `logMean`-style sum of squares of `(p[i] - 128) / 128` over the payload
bytes of `getDecibelsFromRtp_PCMU8` (`src/util.ts` lines 23-29). -/
def pcmu8SumSquares (payload : List ℕ) : ℚ :=
  (payload.map fun b : ℕ => (((b : ℚ) - 128) / 128) ^ 2).sum

/-- `20 * Math.log10(rms || 0.00001)` (`src/util.ts` line 32): `rms` is
non-negative, so the truthiness fallback fires exactly at `rms = 0`. -/
noncomputable def dbOfRms (rms : ℝ) : ℝ :=
  20 * Real.logb 10 (if rms = 0 then 1 / 100000 else rms)

/-- `getDecibelsFromRtp_PCMU8` (`src/util.ts` lines 15-35): `null` for
packets no longer than the 12-byte RTP header, otherwise
`{ db, rms }` over the payload. -/
noncomputable def getDecibelsFromRtp_PCMU8 (rtpPacket : List ℕ) :
    Option (ℝ × ℝ) :=
  if rtpPacket.length ≤ 12 then none
  else
    let payload := rtpPacket.drop 12
    if payload.length = 0 then none
    else
      let rms : ℝ := Real.sqrt ((pcmu8SumSquares payload : ℝ) / payload.length)
      some (dbOfRms rms, rms)

/-! ## Geometry kernel: properties of `calculateIoU` -/

/-- The clamped intersection area computed inside `calculateIoU`. -/
def interArea (a b : Box) : ℚ :=
  max 0 (min (a.x + a.w) (b.x + b.w) - max a.x b.x) *
  max 0 (min (a.y + a.h) (b.y + b.h) - max a.y b.y)

/-- The union area computed inside `calculateIoU`. -/
def unionArea (a b : Box) : ℚ := boxArea a + boxArea b - interArea a b

deriving instance DecidableEq for Except

/-- A concrete per-class settings object used by the concrete runs: only
`person` enabled, `minConfirmationFrames = 3`, `iouThreshold = 0.5`,
`movementThreshold = 10`. -/
def sampleSettings : TrackSettings :=
  { enabledClasses := some ["person"],
    minScore := fun _ => none,
    minConfirmationFrames := fun _ => some 3,
    iouThreshold := fun _ => some (1 / 2),
    movementThreshold := fun _ => some 10 }

/-- The S6 detection: a `[0,0,980,980]` box (ratio `0.9604` in a
`1000×1000` frame). -/
def oversizeDet : Det :=
  { className := "person", score := 9 / 10, boundingBox := some ⟨0, 0, 980, 980⟩ }

/-- A detection whose box ratio is exactly the `0.95` boundary. -/
def boundaryDet : Det :=
  { className := "person", score := 9 / 10, boundingBox := some ⟨0, 0, 950, 1000⟩ }

/-- Two detections that the NMS keep-predicate lets coexist. -/
def KeepOK (s : Option TrackSettings) (a b : Det) : Prop :=
  nmsKeep s a b = .ok true

/-- Score-descending order (the order produced by the NMS sort). -/
def ScoreSortedDesc (l : List Det) : Prop :=
  l.Pairwise fun a b => b.score ≤ a.score

/-- A map whose tracks all carry bounding boxes (true of every
tracker-created track). -/
def BoxedMap (m : TrackMap) : Prop :=
  ∀ k t, (k, t) ∈ m → t.boundingBox ≠ none

/-- The concrete malformed input: a detection with no bounding box. -/
def c1NoBoxDet : Det := { className := "person", score := 9 / 10 }

/-- A well-formed concrete detection used by the C1 witness. -/
def wellFormedDet : Det :=
  { className := "person", score := 9 / 10, boundingBox := some ⟨10, 10, 50, 50⟩ }

/-- The structural invariant on the two track maps: entries are keyed by
their track's `id`, keys are unique, the maps are disjoint, and every key
was minted by a past value of `nextTrackId`. -/
structure MapsInv (tracks lostTracks : TrackMap) (nextTrackId : ℕ) : Prop where
  idTracks : ∀ k t, (k, t) ∈ tracks → t.id = k
  idLost : ∀ k t, (k, t) ∈ lostTracks → t.id = k
  nodupTracks : (tracks.map Prod.fst).Nodup
  nodupLost : (lostTracks.map Prod.fst).Nodup
  disj : ∀ k, k ∈ tracks.map Prod.fst → k ∉ lostTracks.map Prod.fst
  freshTracks : ∀ k ∈ tracks.map Prod.fst, ∃ j, j < nextTrackId ∧ k = toString36 j
  freshLost : ∀ k ∈ lostTracks.map Prod.fst, ∃ j, j < nextTrackId ∧ k = toString36 j

/-- A confirmed track always has enough hits for its class's (possibly
absent or zero, i.e. falsy) `minConfirmationFrames`. -/
def ConfOK (s : TrackSettings) (t : TrackedObject) : Prop :=
  t.active = true →
    jsGeNatOpt t.hits (s.minConfirmationFrames t.className) = true ∨
    jsFalsyQ (s.minConfirmationFrames t.className) = true

/-- `ConfOK` for every track of the two maps. -/
def ConfInv (s : TrackSettings) (tracks lostTracks : TrackMap) : Prop :=
  ∀ k t, ((k, t) ∈ tracks ∨ (k, t) ∈ lostTracks) → ConfOK s t

/-- Every entry keyed `k` is confirmed. -/
def StickyP (k : String) (tracks lostTracks : TrackMap) : Prop :=
  ∀ t, ((k, t) ∈ tracks ∨ (k, t) ∈ lostTracks) → t.active = true

def updateMany : TrackerState → List (Detected × ℚ) → Except String TrackerState
  | st, [] => .ok st
  | st, (d, now) :: rest =>
    match ObjectTracker.update st d false now with
    | .error e => .error e
    | .ok (_, st') => updateMany st' rest

def c4Track : TrackedObject :=
  { id := "1", className := "person", score := 1,
    boundingBox := some ⟨0, 0, 10, 10⟩, label := none, history := none,
    hits := 5, misses := 0, lostFrames := 0, active := true,
    movement := { firstSeen := some 0, lastSeen := some 0, moving := false } }

def c4St : TrackerState :=
  { mkObjectTracker "ab" (some sampleSettings) with
    tracks := [("1", c4Track)], nextTrackId := 2 }

def c4Frames : List (Detected × ℚ) :=
  [({ detections := none, inputDimensions := (1000, 1000) }, 500)]

def c4TrackAfter : TrackedObject := { c4Track with misses := 1 }

def c4StAfter : TrackerState :=
  { c4St with
    tracks := [("1", c4TrackAfter)], lastDetectionId := some 500,
    lastActiveIds := [some "1", none],
    lastActiveClasses := stableSortBy (fun a b : String => decide (a < b)) ["person", "motion"], currentFrame := 1 }

def c10St : TrackerState := mkObjectTracker "ab" (some sampleSettings)

def c10Detected : Detected := { detections := none, inputDimensions := (1, 1) }

def c10Res : FrameResult :=
  { active := [{ className := "motion", score := 1 }], pending := [],
    detectionId := some "ab-0" }

def c10StAfter : TrackerState :=
  { c10St with
    lastDetectionId := some 0, lastActiveIds := [none],
    lastActiveClasses := ["motion"], currentFrame := 1 }

def c2Settings : TrackSettings :=
  { enabledClasses := some ["person"],
    minScore := fun _ => none,
    minConfirmationFrames := fun _ => some 2,
    iouThreshold := fun _ => some (1 / 4),
    movementThreshold := fun _ => some 10 }

def c2Det : Det :=
  { className := "person", score := 9 / 10, boundingBox := some ⟨0, 0, 10, 10⟩ }

def c2Frame : Detected :=
  { detections := some [c2Det], inputDimensions := (1000, 1000) }

def c2Probe : Except String ((Option (Bool × ℕ)) × Option String ×
    List (Option String) × (Option (Bool × ℕ)) × Option String ×
    List (Option String)) :=
  match ObjectTracker.update (mkObjectTracker "ab" (some c2Settings))
      c2Frame false 1000 with
  | .error e => .error e
  | .ok (r1, st1) =>
    match ObjectTracker.update st1 c2Frame false 2000 with
    | .error e => .error e
    | .ok (r2, st2) =>
      .ok ((mapGet st1.tracks "1").map (fun t => (t.active, t.hits)),
           r1.detectionId, st1.lastActiveIds,
           (mapGet st2.tracks "1").map (fun t => (t.active, t.hits)),
           r2.detectionId, st2.lastActiveIds)

def candIoU (det : Det) (t : TrackedObject) : Option ℚ :=
  match det.boundingBox, t.boundingBox with
  | some db, some tb => calculateIoU db tb
  | _, _ => none

def ActiveArgmax (st : TrackSettings) (det : Det) (l : TrackMap)
    (r : Option String) : Prop :=
  (r = none ∧ (∀ k t, (k, t) ∈ l → t.className = det.className →
    ∀ j, candIoU det t = some j →
      jsGtQOpt j (st.iouThreshold det.className) = true → j ≤ 0)) ∨
  (∃ tid t l1 l2 i, r = some tid ∧ l = l1 ++ (tid, t) :: l2 ∧
    t.className = det.className ∧ candIoU det t = some i ∧
    jsGtQOpt i (st.iouThreshold det.className) = true ∧ 0 < i ∧
    (∀ k' t', (k', t') ∈ l1 → t'.className = det.className →
      ∀ j, candIoU det t' = some j →
        jsGtQOpt j (st.iouThreshold det.className) = true → j < i) ∧
    (∀ k' t', (k', t') ∈ l2 → t'.className = det.className →
      ∀ j, candIoU det t' = some j →
        jsGtQOpt j (st.iouThreshold det.className) = true → j ≤ i))

def c3Settings : TrackSettings :=
  { enabledClasses := some ["person"],
    minScore := fun _ => none,
    minConfirmationFrames := fun _ => some 2,
    iouThreshold := fun _ => some (1 / 4),
    movementThreshold := fun _ => some 10 }

def c3TrackA : TrackedObject :=
  { id := "1", className := "person", score := 1,
    boundingBox := some ⟨0, 0, 10, 10⟩, label := none, history := none,
    hits := 3, misses := 0, lostFrames := 0, active := true,
    movement := { firstSeen := some 0, lastSeen := some 0, moving := false } }

def c3TrackB : TrackedObject :=
  { id := "2", className := "person", score := 1,
    boundingBox := some ⟨0, 0, 14, 10⟩, label := none, history := none,
    hits := 3, misses := 0, lostFrames := 0, active := true,
    movement := { firstSeen := some 0, lastSeen := some 0, moving := false } }

def c3Tracks : TrackMap := [("1", c3TrackA), ("2", c3TrackB)]

def c3Det1 : Det :=
  { className := "person", score := 9 / 10, boundingBox := some ⟨0, 0, 10, 10⟩ }

def c3Det2 : Det :=
  { className := "person", score := 9 / 10, boundingBox := some ⟨0, 0, 11, 10⟩ }

def c3AState : AssocState :=
  { tracks := c3Tracks, lostTracks := [], nextTrackId := 3,
    assignedTracks := ["1"], updatedTrackIds := ["1"],
    newlyConfirmedIds := [] }

lemma calculateIoU_eq (a b : Box) :
    calculateIoU a b =
      if unionArea a b = 0 then none
      else some (interArea a b / unionArea a b) := rfl

lemma interArea_nonneg (a b : Box) : 0 ≤ interArea a b :=
  mul_nonneg (le_max_left 0 _) (le_max_left 0 _)

lemma interArea_comm (a b : Box) : interArea a b = interArea b a := by
  unfold interArea
  rw [max_comm a.x b.x, max_comm a.y b.y,
    min_comm (a.x + a.w) (b.x + b.w), min_comm (a.y + a.h) (b.y + b.h)]

lemma unionArea_comm (a b : Box) : unionArea a b = unionArea b a := by
  unfold unionArea
  rw [interArea_comm, add_comm]

/-- If the boxes genuinely overlap, the intersection is bounded by either
box's area (and in particular both areas are positive). -/
lemma interArea_le (a b : Box) (h : 0 < interArea a b) :
    interArea a b ≤ boxArea a ∧ interArea a b ≤ boxArea b := by
  unfold interArea at *
  set ow := min (a.x + a.w) (b.x + b.w) - max a.x b.x with how
  set oh := min (a.y + a.h) (b.y + b.h) - max a.y b.y with hoh
  have hwpos : 0 < max 0 ow := by
    by_contra hc
    push_neg at hc
    have : max 0 ow = 0 := le_antisymm hc (le_max_left 0 ow)
    rw [this, zero_mul] at h
    exact lt_irrefl 0 h
  have hhpos : 0 < max 0 oh := by
    by_contra hc
    push_neg at hc
    have : max 0 oh = 0 := le_antisymm hc (le_max_left 0 oh)
    rw [this, mul_zero] at h
    exact lt_irrefl 0 h
  have howpos : 0 < ow := by
    rcases max_choice 0 ow with hmax | hmax
    · rw [hmax] at hwpos; exact absurd hwpos (lt_irrefl 0)
    · rwa [hmax] at hwpos
  have hohpos : 0 < oh := by
    rcases max_choice 0 oh with hmax | hmax
    · rw [hmax] at hhpos; exact absurd hhpos (lt_irrefl 0)
    · rwa [hmax] at hhpos
  have hmw : max 0 ow = ow := max_eq_right howpos.le
  have hmh : max 0 oh = oh := max_eq_right hohpos.le
  rw [hmw, hmh]
  have hwa : ow ≤ a.w := by
    rw [how]
    have h1 : min (a.x + a.w) (b.x + b.w) ≤ a.x + a.w := min_le_left _ _
    have h2 : a.x ≤ max a.x b.x := le_max_left _ _
    linarith
  have hwb : ow ≤ b.w := by
    rw [how]
    have h1 : min (a.x + a.w) (b.x + b.w) ≤ b.x + b.w := min_le_right _ _
    have h2 : b.x ≤ max a.x b.x := le_max_right _ _
    linarith
  have hha : oh ≤ a.h := by
    rw [hoh]
    have h1 : min (a.y + a.h) (b.y + b.h) ≤ a.y + a.h := min_le_left _ _
    have h2 : a.y ≤ max a.y b.y := le_max_left _ _
    linarith
  have hhb : oh ≤ b.h := by
    rw [hoh]
    have h1 : min (a.y + a.h) (b.y + b.h) ≤ b.y + b.h := min_le_right _ _
    have h2 : b.y ≤ max a.y b.y := le_max_right _ _
    linarith
  constructor
  · exact mul_le_mul hwa hha hohpos.le (by linarith)
  · exact mul_le_mul hwb hhb hohpos.le (by linarith)

/-- A zero-area box cannot overlap anything. -/
lemma interArea_eq_zero_left (a b : Box) (h : boxArea a = 0) :
    interArea a b = 0 := by
  by_contra hc
  have hpos : 0 < interArea a b :=
    lt_of_le_of_ne (interArea_nonneg a b) (Ne.symm hc)
  have := (interArea_le a b hpos).1
  rw [h] at this
  exact absurd (lt_of_lt_of_le hpos this) (lt_irrefl 0)

/-- Claim C8: `calculateIoU` on `[x, y, w, h]` boxes is symmetric; every
numeric result lies in `[0, 1]`; `iou(a, a) = 1` for a box with positive
width and height; and a zero-area box against a nonzero-area box yields
`0`, while two zero-area boxes make the code compute `0 / 0` (`NaN`,
embedded as `none`). -/
theorem claim_C8 (a b : Box) :
    calculateIoU a b = calculateIoU b a
    ∧ (∀ q : ℚ, calculateIoU a b = some q → 0 ≤ q ∧ q ≤ 1)
    ∧ (0 < a.w → 0 < a.h → calculateIoU a a = some 1)
    ∧ (boxArea a = 0 → boxArea b ≠ 0 → calculateIoU a b = some 0)
    ∧ (boxArea b = 0 → boxArea a ≠ 0 → calculateIoU a b = some 0)
    ∧ (boxArea a = 0 → boxArea b = 0 → calculateIoU a b = none) := by
  refine ⟨?_, ?_, ?_, ?_, ?_, ?_⟩
  · rw [calculateIoU_eq, calculateIoU_eq, interArea_comm, unionArea_comm]
  · intro q hq
    rw [calculateIoU_eq] at hq
    split at hq
    · exact absurd hq (by simp)
    · next hu =>
      have hq' : q = interArea a b / unionArea a b := by
        exact (Option.some.injEq _ _ ▸ hq).symm
      have hi : 0 ≤ interArea a b := interArea_nonneg a b
      rcases eq_or_lt_of_le hi with hzero | hpos
      · rw [hq', ← hzero, zero_div]
        exact ⟨le_refl 0, zero_le_one⟩
      · have hle := interArea_le a b hpos
        have hupos : 0 < unionArea a b := by
          unfold unionArea; linarith [hle.1, hle.2]
        constructor
        · rw [hq']; exact div_nonneg hi hupos.le
        · rw [hq']
          rw [div_le_one hupos]
          unfold unionArea; linarith [hle.1, hle.2]
  · intro hw hh
    have harea : 0 < boxArea a := mul_pos hw hh
    have hinter : interArea a a = boxArea a := by
      unfold interArea boxArea
      rw [max_self, max_self, min_self, min_self]
      rw [add_sub_cancel_left, add_sub_cancel_left]
      rw [max_eq_right hw.le, max_eq_right hh.le]
    have hunion : unionArea a a = boxArea a := by
      unfold unionArea; rw [hinter]; ring
    rw [calculateIoU_eq, hunion, hinter, if_neg harea.ne', div_self harea.ne']
  · intro ha hb
    have hi : interArea a b = 0 := interArea_eq_zero_left a b ha
    have hu : unionArea a b = boxArea b := by
      unfold unionArea; rw [hi, ha]; ring
    rw [calculateIoU_eq, hu, hi, if_neg hb, zero_div]
  · intro hb ha
    have hi : interArea a b = 0 := by
      rw [interArea_comm]; exact interArea_eq_zero_left b a hb
    have hu : unionArea a b = boxArea a := by
      unfold unionArea; rw [hi, hb]; ring
    rw [calculateIoU_eq, hu, hi, if_neg ha, zero_div]
  · intro ha hb
    have hi : interArea a b = 0 := interArea_eq_zero_left a b ha
    have hu : unionArea a b = 0 := by
      unfold unionArea; rw [hi, ha, hb]; ring
    rw [calculateIoU_eq, if_pos hu]

/-- Witness for C8 at concrete boxes: a positive box has self-IoU `1`, and a
degenerate box against it gives `0`. -/
theorem claim_C8_witness :
    calculateIoU ⟨0, 0, 2, 3⟩ ⟨0, 0, 2, 3⟩ = some 1
    ∧ calculateIoU ⟨1, 1, 0, 5⟩ ⟨0, 0, 2, 3⟩ = some 0 :=
  ⟨(claim_C8 ⟨0, 0, 2, 3⟩ ⟨0, 0, 2, 3⟩).2.2.1 (by norm_num) (by norm_num),
   (claim_C8 ⟨1, 1, 0, 5⟩ ⟨0, 0, 2, 3⟩).2.2.2.1 (by norm_num [boxArea])
     (by norm_num [boxArea])⟩

/-! ## Pre-filter: oversize rejection -/

lemma exceptFilter_ok_of_total {α : Type} {p : α → Except String Bool}
    {q : α → Bool} :
    ∀ {l : List α}, (∀ d ∈ l, p d = .ok (q d)) →
      exceptFilter p l = .ok (l.filter q)
  | [], _ => rfl
  | d :: ds, h => by
    have hd : p d = .ok (q d) := h d (List.mem_cons_self d ds)
    have hds : exceptFilter p ds = .ok (ds.filter q) :=
      exceptFilter_ok_of_total fun x hx => h x (List.mem_cons_of_mem d hx)
    simp only [exceptFilter, hd, hds, List.filter]
    cases q d <;> simp

/-- Claim C6: with a nonzero image area and boxes present, the pre-filter's
oversize stage keeps a detection exactly when `boxArea / imageArea < 0.95`
(so ratio `≥ 0.95` is dropped, including the boundary), and the S6
oversize box is dropped with no track created — after the `update` call the
track map is empty and `active` holds only the bare motion sentinel. -/
theorem claim_C6 (dets : List Det) (dims : ℚ × ℚ)
    (hboxed : ∀ d ∈ dets, d.boundingBox ≠ none)
    (hdim : dims.1 * dims.2 ≠ 0) :
    filterLargeDetections dets dims = .ok (dets.filter fun d =>
      match d.boundingBox with
      | some b => decide (boxArea b / (dims.1 * dims.2) < 95 / 100)
      | none => false)
    ∧ filterLargeDetections [oversizeDet] (1000, 1000) = .ok []
    ∧ filterLargeDetections [boundaryDet] (1000, 1000) = .ok []
    ∧ (ObjectTracker.update (mkObjectTracker "ab" (some sampleSettings))
        { detections := some [oversizeDet], inputDimensions := (1000, 1000) }
        false 0).map (fun p => (p.2.tracks, p.1.active)) =
      .ok ([], [{ className := "motion", score := 1 }]) := by
  refine ⟨?_,
    by norm_num [filterLargeDetections, exceptFilter, largeKeep, jsRatioLt,
      oversizeDet, boxArea],
    by norm_num [filterLargeDetections, exceptFilter, largeKeep, jsRatioLt,
      boundaryDet, boxArea],
    by norm_num [ObjectTracker.update, mkObjectTracker, prefilterDetections,
      filterLargeDetections, filterBySettings, filterOverlappedDetections,
      exceptFilter, largeKeep, jsRatioLt, boxArea, sampleSettings, oversizeDet,
      processWithIOU, List.foldlM, applyMisses, cleanupLost, buildActiveTracks,
      addMotionEntries, jsSetOfList, stableSortBy, getNewDetectionId,
      jsFalsyQ, jsGtOptOpt, Except.map, Except.bind, Except.pure, bind, pure]⟩
  apply exceptFilter_ok_of_total
  intro d hd
  cases hbb : d.boundingBox with
  | none => exact absurd hbb (hboxed d hd)
  | some b =>
    simp only [largeKeep, hbb, jsRatioLt, if_neg hdim]

/-- Witness for C6: a small box in a `1000×1000` frame survives the
oversize stage. -/
theorem claim_C6_witness :
    filterLargeDetections
      [{ className := "person", score := 9 / 10,
         boundingBox := some ⟨10, 10, 50, 50⟩ }] (1000, 1000) =
      .ok [{ className := "person", score := 9 / 10,
             boundingBox := some ⟨10, 10, 50, 50⟩ }] := by
  have h := (claim_C6
    [{ className := "person", score := 9 / 10,
       boundingBox := some ⟨10, 10, 50, 50⟩ }] (1000, 1000)
    (by decide) (by norm_num)).1
  rw [h]
  norm_num [boxArea]

/-! ## Audio level sampler: `getDecibelsFromRtp_PCMU8` -/

lemma logb_ten_hundredThousandth : Real.logb 10 (1 / 100000) = -5 := by
  have h5 : ((10 : ℝ) ^ (-5 : ℝ)) = 1 / 100000 := by
    rw [Real.rpow_neg (by norm_num : (0 : ℝ) ≤ 10),
      show ((5 : ℝ)) = ((5 : ℕ) : ℝ) by norm_num, Real.rpow_natCast]
    norm_num
  rw [← h5, Real.logb_rpow (by norm_num) (by norm_num)]

/-- Claim C9: `getDecibelsFromRtp_PCMU8` returns `null` exactly when the
packet length is `≤ 12`; otherwise it returns
`rms = sqrt((Σ ((p[i]−128)/128)²)/n)` over the `n` payload bytes and
`db = 20·log10(rms || 1e-5)`, which agrees with `20·log10(max(rms, 1e-5))`
except for `0 < rms < 1e-5` where the two differ; a 160-byte payload of
`128`s yields `rms = 0` and `db = -100`. -/
theorem claim_C9 :
    (∀ p : List ℕ, getDecibelsFromRtp_PCMU8 p = none ↔ p.length ≤ 12)
    ∧ (∀ p : List ℕ, 12 < p.length →
        getDecibelsFromRtp_PCMU8 p =
          some
            (dbOfRms (Real.sqrt ((pcmu8SumSquares (p.drop 12) : ℝ) /
                (p.drop 12).length)),
             Real.sqrt ((pcmu8SumSquares (p.drop 12) : ℝ) / (p.drop 12).length)))
    ∧ (∀ rms : ℝ, rms = 0 ∨ 1 / 100000 ≤ rms →
        dbOfRms rms = 20 * Real.logb 10 (max rms (1 / 100000)))
    ∧ (∀ rms : ℝ, 0 < rms → rms < 1 / 100000 →
        dbOfRms rms ≠ 20 * Real.logb 10 (max rms (1 / 100000)))
    ∧ getDecibelsFromRtp_PCMU8 (List.replicate 172 128) = some (-100, 0) := by
  have hlen : ∀ p : List ℕ, 12 < p.length → (p.drop 12).length ≠ 0 := by
    intro p hp
    rw [List.length_drop]
    omega
  refine ⟨?_, ?_, ?_, ?_, ?_⟩
  · intro p
    constructor
    · intro h
      by_contra hc
      push_neg at hc
      rw [getDecibelsFromRtp_PCMU8, if_neg (by omega), if_neg (hlen p hc)] at h
      exact Option.some_ne_none _ h
    · intro h
      rw [getDecibelsFromRtp_PCMU8, if_pos h]
  · intro p hp
    rw [getDecibelsFromRtp_PCMU8, if_neg (by omega), if_neg (hlen p hp)]
  · intro rms h
    rcases h with h0 | hge
    · rw [dbOfRms, if_pos h0, h0, max_eq_right (by norm_num)]
    · have hpos : (0 : ℝ) < rms := lt_of_lt_of_le (by norm_num) hge
      rw [dbOfRms, if_neg hpos.ne', max_eq_left hge]
  · intro rms hpos hlt
    rw [dbOfRms, if_neg hpos.ne', max_eq_right hlt.le]
    intro hc
    have hmono : Real.logb 10 rms < Real.logb 10 (1 / 100000) :=
      Real.logb_lt_logb (by norm_num) hpos hlt
    have := mul_lt_mul_of_pos_left hmono (by norm_num : (0 : ℝ) < 20)
    rw [hc] at this
    exact lt_irrefl _ this
  · have hdrop : (List.replicate 172 128).drop 12 = List.replicate 160 (128 : ℕ) := by
      rw [List.drop_replicate]
    have hsum : pcmu8SumSquares (List.replicate 160 (128 : ℕ)) = 0 := by
      rw [pcmu8SumSquares, List.map_replicate]
      norm_num
    rw [getDecibelsFromRtp_PCMU8, if_neg (by norm_num), hdrop]
    rw [if_neg (by norm_num), hsum]
    have hrms : Real.sqrt (((0 : ℚ) : ℝ) / (List.replicate 160 (128 : ℕ)).length) = 0 := by
      norm_num
    rw [hrms]
    simp only [dbOfRms]
    norm_num [logb_ten_hundredThousandth]

/-- Witness for C9: a 5-byte packet is skipped, and the all-`128` silence
packet gives `rms = 0`, `db = -100`. -/
theorem claim_C9_witness :
    getDecibelsFromRtp_PCMU8 (List.replicate 5 0) = none
    ∧ getDecibelsFromRtp_PCMU8 (List.replicate 172 128) = some (-100, 0) :=
  ⟨(claim_C9.1 (List.replicate 5 0)).mpr (by norm_num), claim_C9.2.2.2.2⟩

/-! ## Pre-filter: NMS idempotence -/

lemma exceptFilter_sublist {α : Type} {p : α → Except String Bool} :
    ∀ {l r : List α}, exceptFilter p l = .ok r → r.Sublist l
  | [], r, h => by
    simp only [exceptFilter] at h
    cases h
    exact List.Sublist.refl []
  | d :: ds, r, h => by
    simp only [exceptFilter] at h
    cases hp : p d with
    | error e => rw [hp] at h; exact absurd h (by simp)
    | ok b =>
      rw [hp] at h
      cases hds : exceptFilter p ds with
      | error e => rw [hds] at h; exact absurd h (by simp)
      | ok r' =>
        rw [hds] at h
        have hsub : r'.Sublist ds := exceptFilter_sublist hds
        cases b with
        | true =>
          simp only [if_true] at h
          cases h
          exact List.Sublist.cons₂ d hsub
        | false =>
          simp only [if_false] at h
          cases h
          exact List.Sublist.cons d hsub

lemma exceptFilter_ok_mem {α : Type} {p : α → Except String Bool} :
    ∀ {l r : List α}, exceptFilter p l = .ok r → ∀ d ∈ r, p d = .ok true
  | [], r, h => by
    simp only [exceptFilter] at h
    cases h
    intro d hd
    exact absurd hd (List.not_mem_nil d)
  | x :: ds, r, h => by
    simp only [exceptFilter] at h
    cases hp : p x with
    | error e => rw [hp] at h; exact absurd h (by simp)
    | ok b =>
      rw [hp] at h
      cases hds : exceptFilter p ds with
      | error e => rw [hds] at h; exact absurd h (by simp)
      | ok r' =>
        rw [hds] at h
        intro d hd
        cases b with
        | true =>
          simp only [if_true] at h
          cases h
          rcases List.mem_cons.mp hd with rfl | hmem
          · exact hp
          · exact exceptFilter_ok_mem hds d hmem
        | false =>
          simp only [if_false] at h
          cases h
          exact exceptFilter_ok_mem hds d hd

lemma exceptFilter_ok_all_true {α : Type} {p : α → Except String Bool}
    {l : List α} (h : ∀ d ∈ l, p d = .ok true) : exceptFilter p l = .ok l := by
  have := exceptFilter_ok_of_total (q := fun _ => true) h
  rwa [List.filter_true] at this

lemma nmsLoopF_ok_sublist {s : Option TrackSettings} :
    ∀ {fuel : ℕ} {l r : List Det}, nmsLoopF s fuel l = .ok r → r.Sublist l
  | _, [], r, h => by
    simp only [nmsLoopF] at h
    cases h
    exact List.Sublist.refl []
  | 0, _ :: _, r, h => by
    simp only [nmsLoopF] at h
    cases h
    exact List.nil_sublist _
  | fuel + 1, cur :: rest, r, h => by
    simp only [nmsLoopF] at h
    cases hf : exceptFilter (nmsKeep s cur) rest with
    | error e => simp only [hf] at h; exact absurd h (by simp)
    | ok remaining =>
      simp only [hf] at h
      cases hrec : nmsLoopF s fuel remaining with
      | error e => simp only [hrec] at h; exact absurd h (by simp)
      | ok r' =>
        simp only [hrec, Except.ok.injEq] at h
        subst h
        exact List.Sublist.cons₂ cur
          ((nmsLoopF_ok_sublist hrec).trans (exceptFilter_sublist hf))

lemma nmsLoopF_ok_pairwise {s : Option TrackSettings} :
    ∀ {fuel : ℕ} {l r : List Det}, l.length ≤ fuel →
      nmsLoopF s fuel l = .ok r → r.Pairwise (KeepOK s)
  | _, [], r, _, h => by
    simp only [nmsLoopF] at h
    cases h
    exact List.Pairwise.nil
  | 0, x :: ds, r, hle, h => by
    simp at hle
  | fuel + 1, cur :: rest, r, hle, h => by
    simp only [nmsLoopF] at h
    cases hf : exceptFilter (nmsKeep s cur) rest with
    | error e => simp only [hf] at h; exact absurd h (by simp)
    | ok remaining =>
      simp only [hf] at h
      cases hrec : nmsLoopF s fuel remaining with
      | error e => simp only [hrec] at h; exact absurd h (by simp)
      | ok r' =>
        simp only [hrec, Except.ok.injEq] at h
        subst h
        have hlen : remaining.length ≤ fuel := by
          have h1 := (exceptFilter_sublist hf).length_le
          simp only [List.length_cons] at hle
          omega
        refine List.Pairwise.cons ?_ (nmsLoopF_ok_pairwise hlen hrec)
        intro d hd
        have hdrem : d ∈ remaining :=
          (nmsLoopF_ok_sublist hrec).subset hd
        exact exceptFilter_ok_mem hf d hdrem

lemma nmsLoopF_id {s : Option TrackSettings} :
    ∀ {fuel : ℕ} {l : List Det}, l.Pairwise (KeepOK s) → l.length ≤ fuel →
      nmsLoopF s fuel l = .ok l
  | _, [], _, _ => by simp only [nmsLoopF]
  | 0, x :: ds, _, hle => by simp at hle
  | fuel + 1, cur :: rest, hp, hle => by
    rcases List.pairwise_cons.mp hp with ⟨hhead, htail⟩
    have hfilter : exceptFilter (nmsKeep s cur) rest = .ok rest :=
      exceptFilter_ok_all_true hhead
    have hlen : rest.length ≤ fuel := by
      simp only [List.length_cons] at hle; omega
    simp only [nmsLoopF, hfilter, nmsLoopF_id htail hlen]

lemma insertSorted_mem {α : Type} {lt : α → α → Bool} {d x : α} :
    ∀ {l : List α}, x ∈ insertSorted lt d l ↔ x = d ∨ x ∈ l
  | [] => by simp [insertSorted]
  | y :: ys => by
    simp only [insertSorted]
    cases hlt : lt d y with
    | true =>
      simp only [if_true, List.mem_cons]
    | false =>
      simp only [Bool.false_eq_true, if_false, List.mem_cons,
        insertSorted_mem (l := ys)]
      tauto

lemma insertSorted_sorted {d : Det} :
    ∀ {l : List Det}, ScoreSortedDesc l →
      ScoreSortedDesc (insertSorted scoreBefore d l)
  | [], _ => by simp [insertSorted, ScoreSortedDesc]
  | y :: ys, h => by
    rcases List.pairwise_cons.mp h with ⟨hy, hys⟩
    by_cases hlt : scoreBefore d y
    · have hdy : y.score < d.score := by
        simpa [scoreBefore] using hlt
      simp only [insertSorted, hlt, if_true]
      refine List.Pairwise.cons ?_ h
      intro z hz
      rcases List.mem_cons.mp hz with rfl | hmem
      · exact hdy.le
      · exact (hy z hmem).trans hdy.le
    · have hdy : d.score ≤ y.score := by
        simpa [scoreBefore, not_lt] using hlt
      simp only [insertSorted, hlt, if_false]
      refine List.Pairwise.cons ?_ (insertSorted_sorted hys)
      intro z hz
      rcases insertSorted_mem.mp hz with rfl | hmem
      · exact hdy
      · exact hy z hmem

lemma insertSorted_of_all_before {α : Type} {lt : α → α → Bool} {d : α} :
    ∀ {l : List α}, (∀ x ∈ l, lt d x = false) →
      insertSorted lt d l = l ++ [d]
  | [], _ => rfl
  | y :: ys, h => by
    have hy : lt d y = false := h y (List.mem_cons_self y ys)
    simp only [insertSorted, hy, Bool.false_eq_true, if_false, List.cons_append,
      List.cons.injEq, true_and]
    exact insertSorted_of_all_before fun x hx => h x (List.mem_cons_of_mem y hx)

lemma stableSortBy_sorted_acc :
    ∀ (l acc : List Det), ScoreSortedDesc acc →
      ScoreSortedDesc (l.foldl (fun a d => insertSorted scoreBefore d a) acc)
  | [], _, h => h
  | d :: ds, acc, h =>
    stableSortBy_sorted_acc ds (insertSorted scoreBefore d acc)
      (insertSorted_sorted h)

/-- The NMS sort produces a score-descending list. -/
lemma sortByScoreDesc_sorted (l : List Det) :
    ScoreSortedDesc (sortByScoreDesc l) :=
  stableSortBy_sorted_acc l [] List.Pairwise.nil

lemma foldl_insertSorted_of_sorted :
    ∀ (l acc : List Det), ScoreSortedDesc (acc ++ l) →
      l.foldl (fun a d => insertSorted scoreBefore d a) acc = acc ++ l
  | [], acc, _ => by simp
  | d :: ds, acc, h => by
    have hall : ∀ x ∈ acc, scoreBefore d x = false := by
      intro x hx
      have := (List.pairwise_append.mp h).2.2 x hx d (List.mem_cons_self d ds)
      simpa [scoreBefore, not_lt] using this
    have hstep : insertSorted scoreBefore d acc = acc ++ [d] :=
      insertSorted_of_all_before hall
    have hrest : ScoreSortedDesc ((acc ++ [d]) ++ ds) := by
      simpa [List.append_assoc] using h
    simp only [List.foldl_cons, hstep]
    rw [foldl_insertSorted_of_sorted ds (acc ++ [d]) hrest]
    simp

/-- Sorting an already score-descending list is the identity (the sort is
stable, so equal scores keep their order). -/
lemma sortByScoreDesc_of_sorted {l : List Det} (h : ScoreSortedDesc l) :
    sortByScoreDesc l = l := by
  have := foldl_insertSorted_of_sorted l [] (by simpa using h)
  simpa [sortByScoreDesc, stableSortBy] using this

/-- Claim C7: the NMS stage is idempotent — if `filterOverlappedDetections`
returns a list, applying it to that list returns the same list: every pair
of same-class survivors already satisfies `iou ≤ iouThreshold`, and the
survivors are in score-descending order, so the second sort and the second
suppression pass change nothing. -/
theorem claim_C7 (detections : List Det) (s : Option TrackSettings)
    (out : List Det) (h : filterOverlappedDetections detections s = .ok out) :
    filterOverlappedDetections out s = .ok out := by
  by_cases hemp : detections.isEmpty
  · rw [filterOverlappedDetections, if_pos hemp] at h
    have : out = [] := by
      cases h
      rfl
    subst this
    rfl
  · rw [filterOverlappedDetections, if_neg hemp] at h
    have hpair : out.Pairwise (KeepOK s) :=
      nmsLoopF_ok_pairwise (le_refl _) h
    have hsubl : out.Sublist (sortByScoreDesc detections) :=
      nmsLoopF_ok_sublist h
    have hsorted : ScoreSortedDesc out :=
      List.Pairwise.sublist hsubl (sortByScoreDesc_sorted detections)
    by_cases hoe : out.isEmpty
    · rw [filterOverlappedDetections, if_pos hoe]
      cases out with
      | nil => rfl
      | cons x xs => simp at hoe
    · rw [filterOverlappedDetections, if_neg hoe,
        sortByScoreDesc_of_sorted hsorted]
      exact nmsLoopF_id hpair (le_refl _)

/-- Witness for C7 at a concrete input: two overlapping person boxes, the
lower-scoring one suppressed; a second pass returns the survivor again. -/
theorem claim_C7_witness :
    filterOverlappedDetections
      [{ className := "person", score := 9 / 10, boundingBox := some ⟨0, 0, 10, 10⟩ },
       { className := "person", score := 8 / 10, boundingBox := some ⟨1, 0, 10, 10⟩ }]
      (some sampleSettings) =
      .ok [{ className := "person", score := 9 / 10, boundingBox := some ⟨0, 0, 10, 10⟩ }]
    ∧ filterOverlappedDetections
      [{ className := "person", score := 9 / 10, boundingBox := some ⟨0, 0, 10, 10⟩ }]
      (some sampleSettings) =
      .ok [{ className := "person", score := 9 / 10, boundingBox := some ⟨0, 0, 10, 10⟩ }] := by
  have h1 : filterOverlappedDetections
      [{ className := "person", score := 9 / 10, boundingBox := some ⟨0, 0, 10, 10⟩ },
       { className := "person", score := 8 / 10, boundingBox := some ⟨1, 0, 10, 10⟩ }]
      (some sampleSettings) =
      .ok [{ className := "person", score := 9 / 10, boundingBox := some ⟨0, 0, 10, 10⟩ }] := by
    norm_num [filterOverlappedDetections, sortByScoreDesc, stableSortBy,
      insertSorted, scoreBefore, nmsLoopF, exceptFilter, nmsKeep, sampleSettings,
      jsLeOpt, calculateIoU, boxArea]
  exact ⟨h1, claim_C7 _ _ _ h1⟩

/-! ## Failure behaviour of the pipeline (claim C1) -/

lemma exceptFilter_error_of_mem {α : Type} {p : α → Except String Bool} :
    ∀ {l : List α} {d : α} {e : String}, d ∈ l → p d = .error e →
      ∃ e', exceptFilter p l = .error e'
  | [], d, e, hd, _ => absurd hd (List.not_mem_nil d)
  | x :: ds, d, e, hd, he => by
    cases hp : p x with
    | error e0 => exact ⟨e0, by simp only [exceptFilter, hp]⟩
    | ok b =>
      have hdtail : d ∈ ds := by
        rcases List.mem_cons.mp hd with rfl | h
        · rw [hp] at he; exact absurd he (by simp)
        · exact h
      obtain ⟨e', he'⟩ := exceptFilter_error_of_mem hdtail he
      exact ⟨e', by simp only [exceptFilter, hp, he']⟩

lemma exceptFilter_ok_of_exists {α : Type} {p : α → Except String Bool} :
    ∀ {l : List α}, (∀ d ∈ l, ∃ b, p d = .ok b) →
      ∃ r, exceptFilter p l = .ok r ∧ r.Sublist l
  | [], _ => ⟨[], rfl, List.Sublist.refl []⟩
  | x :: ds, h => by
    obtain ⟨b, hb⟩ := h x (List.mem_cons_self x ds)
    obtain ⟨r, hr, hsub⟩ :=
      exceptFilter_ok_of_exists fun d hd => h d (List.mem_cons_of_mem x hd)
    refine ⟨if b then x :: r else r, ?_, ?_⟩
    · simp only [exceptFilter, hb, hr]
    · cases b with
      | true => simpa using List.Sublist.cons₂ x hsub
      | false => simpa using List.Sublist.cons x hsub

lemma mem_foldl_insertSorted {α : Type} {lt : α → α → Bool} {x : α} :
    ∀ {l acc : List α},
      (x ∈ l.foldl (fun a d => insertSorted lt d a) acc ↔ x ∈ acc ∨ x ∈ l)
  | [], acc => by simp
  | d :: ds, acc => by
    simp only [List.foldl_cons, mem_foldl_insertSorted (l := ds),
      insertSorted_mem, List.mem_cons]
    tauto

lemma mem_sortByScoreDesc {x : Det} {l : List Det} :
    x ∈ sortByScoreDesc l ↔ x ∈ l := by
  simp [sortByScoreDesc, stableSortBy, mem_foldl_insertSorted]

lemma nmsKeep_ok_of_boxed {s : Option TrackSettings} {cur d : Det}
    (hcur : cur.boundingBox ≠ none) (hd : d.boundingBox ≠ none) :
    ∃ b, nmsKeep s cur d = .ok b := by
  rw [nmsKeep.eq_def]
  by_cases hcl : d.className = cur.className
  · rw [if_pos hcl]
    cases hc : cur.boundingBox with
    | none => exact absurd hc hcur
    | some b1 =>
      cases hdd : d.boundingBox with
      | none => exact absurd hdd hd
      | some b2 => exact ⟨_, rfl⟩
  · rw [if_neg hcl]; exact ⟨true, rfl⟩

lemma nmsLoopF_ok_of_boxed {s : Option TrackSettings} :
    ∀ {fuel : ℕ} {l : List Det}, (∀ d ∈ l, d.boundingBox ≠ none) →
      l.length ≤ fuel → ∃ r, nmsLoopF s fuel l = .ok r ∧ r.Sublist l
  | _, [], _, _ => ⟨[], by simp [nmsLoopF], List.Sublist.refl []⟩
  | 0, x :: ds, _, hle => by simp at hle
  | fuel + 1, cur :: rest, hbox, hle => by
    have hcur : cur.boundingBox ≠ none := hbox cur (List.mem_cons_self cur rest)
    obtain ⟨remaining, hrem, hsub⟩ :=
      exceptFilter_ok_of_exists (p := nmsKeep s cur) (l := rest)
        (fun d hd => nmsKeep_ok_of_boxed hcur
          (hbox d (List.mem_cons_of_mem cur hd)))
    have hlen : remaining.length ≤ fuel := by
      have := hsub.length_le
      simp only [List.length_cons] at hle
      omega
    obtain ⟨r, hr, hrsub⟩ := nmsLoopF_ok_of_boxed (s := s)
      (fun d hd => hbox d (List.mem_cons_of_mem cur (hsub.subset hd))) hlen
    exact ⟨cur :: r, by simp only [nmsLoopF, hrem, hr],
      List.Sublist.cons₂ cur (hrsub.trans hsub)⟩

lemma filterOverlapped_ok_of_boxed {dets : List Det} {s : Option TrackSettings}
    (hbox : ∀ d ∈ dets, d.boundingBox ≠ none) :
    ∃ out, filterOverlappedDetections dets s = .ok out ∧ ∀ d ∈ out, d ∈ dets := by
  by_cases hemp : dets.isEmpty
  · exact ⟨[], by rw [filterOverlappedDetections, if_pos hemp], by simp⟩
  · obtain ⟨out, hout, hsub⟩ := @nmsLoopF_ok_of_boxed s
      (sortByScoreDesc dets).length (sortByScoreDesc dets)
      (fun d hd => hbox d (mem_sortByScoreDesc.mp hd)) (le_refl _)
    exact ⟨out, by rw [filterOverlappedDetections, if_neg hemp]; exact hout,
      fun d hd => mem_sortByScoreDesc.mp (hsub.subset hd)⟩

/-- `prefilterDetections` succeeds when every detection carries a bounding
box and the settings carry `enabledClasses`; the output detections are
among the inputs. -/
lemma prefilter_ok_of_boxed {dets : List Det} {dims : ℚ × ℚ}
    {st : TrackSettings} {ec : List String}
    (hbox : ∀ d ∈ dets, d.boundingBox ≠ none)
    (hec : st.enabledClasses = some ec) :
    ∃ out, prefilterDetections dets dims (some st) = .ok out ∧
      ∀ d ∈ out, d ∈ dets := by
  obtain ⟨l1, hl1, hsub1⟩ := exceptFilter_ok_of_exists
    (p := largeKeep (dims.1 * dims.2) (95 / 100)) (l := dets)
    (fun d hd => by
      cases hb : d.boundingBox with
      | none => exact absurd hb (hbox d hd)
      | some b => exact ⟨jsRatioLt (boxArea b) (dims.1 * dims.2) (95 / 100),
          by simp only [largeKeep, hb]⟩)
  have hl1' : filterLargeDetections dets dims = .ok l1 := hl1
  obtain ⟨l2, hl2, hsub2⟩ : ∃ l2, filterBySettings l1 (some st) = .ok l2 ∧
      ∀ d ∈ l2, d ∈ l1 := by
    by_cases hemp : l1.isEmpty
    · exact ⟨[], by rw [filterBySettings, if_pos hemp], by simp⟩
    · refine ⟨_, by rw [filterBySettings, if_neg hemp]; rw [hec], ?_⟩
      exact fun d hd => List.mem_of_mem_filter hd
  obtain ⟨out, hout, hmem⟩ := @filterOverlapped_ok_of_boxed l2 (some st)
    (fun d hd => hbox d (hsub1.subset (hsub2 d hd)))
  refine ⟨out, ?_, fun d hd => hsub1.subset (hsub2 d (hmem d hd))⟩
  rw [prefilterDetections]
  simp only [hl1', hl2, hout, bind, Except.bind]

lemma mapGet_mem : ∀ {m : TrackMap} {k : String} {t : TrackedObject},
    mapGet m k = some t → (k, t) ∈ m
  | [], k, t, h => by simp [mapGet] at h
  | (k', v) :: rest, k, t, h => by
    by_cases hk : k' = k
    · rw [mapGet, if_pos hk] at h
      cases h
      subst hk
      exact List.mem_cons_self _ _
    · rw [mapGet, if_neg hk] at h
      exact List.mem_cons_of_mem _ (mapGet_mem h)

lemma mapSet_mem : ∀ {m : TrackMap} {k k' : String} {v t : TrackedObject},
    (k', t) ∈ mapSet m k v → (k', t) ∈ m ∨ (k', t) = (k, v)
  | [], k, k', v, t, h => by
    simp only [mapSet] at h
    exact Or.inr (List.mem_singleton.mp h)
  | (k0, v0) :: rest, k, k', v, t, h => by
    by_cases hk : k0 = k
    · rw [mapSet, if_pos hk] at h
      rcases List.mem_cons.mp h with heq | hmem
      · exact Or.inr heq
      · exact Or.inl (List.mem_cons_of_mem _ hmem)
    · rw [mapSet, if_neg hk] at h
      rcases List.mem_cons.mp h with heq | hmem
      · exact Or.inl (heq ▸ List.mem_cons_self _ _)
      · rcases mapSet_mem hmem with h1 | h2
        · exact Or.inl (List.mem_cons_of_mem _ h1)
        · exact Or.inr h2

lemma mapDelete_subset : ∀ {m : TrackMap} {k : String} {e : String × TrackedObject},
    e ∈ mapDelete m k → e ∈ m
  | [], k, e, h => by simp [mapDelete] at h
  | (k0, v0) :: rest, k, e, h => by
    by_cases hk : k0 = k
    · rw [mapDelete, if_pos hk] at h
      exact List.mem_cons_of_mem _ (mapDelete_subset h)
    · rw [mapDelete, if_neg hk] at h
      rcases List.mem_cons.mp h with heq | hmem
      · exact heq ▸ List.mem_cons_self _ _
      · exact List.mem_cons_of_mem _ (mapDelete_subset hmem)

lemma matchActiveLoop_ok_of_boxed {st : TrackSettings} {det : Det}
    (hdet : det.boundingBox ≠ none) :
    ∀ {l : TrackMap} {best : Option String} {bIOU : ℚ},
      (∀ k t, (k, t) ∈ l → t.boundingBox ≠ none) →
      ∃ r, matchActiveLoop (some st) det l best bIOU = .ok r
  | [], best, _, _ => ⟨best, rfl⟩
  | (trackId, track) :: rest, best, bIOU, hbox => by
    have htail : ∀ k t, (k, t) ∈ rest → t.boundingBox ≠ none :=
      fun k t ht => hbox k t (List.mem_cons_of_mem _ ht)
    simp only [matchActiveLoop]
    by_cases hcl : track.className = det.className
    · rw [if_pos hcl]
      cases hdb : det.boundingBox with
      | none => exact absurd hdb hdet
      | some db =>
        cases htb : track.boundingBox with
        | none => exact absurd htb (hbox trackId track (List.mem_cons_self _ _))
        | some tb =>
          simp only [jsIndexSettings]
          cases hiou : calculateIoU db tb with
          | none => dsimp only; exact matchActiveLoop_ok_of_boxed hdet htail
          | some iou =>
            dsimp only
            by_cases hc : (jsGtQOpt iou (st.iouThreshold track.className) &&
                decide (bIOU < iou)) = true
            · rw [if_pos hc]
              exact matchActiveLoop_ok_of_boxed hdet htail
            · rw [if_neg hc]
              exact matchActiveLoop_ok_of_boxed hdet htail
    · rw [if_neg hcl]
      exact matchActiveLoop_ok_of_boxed hdet htail

lemma matchLostLoop_ok_of_boxed {det : Det} (hdet : det.boundingBox ≠ none) :
    ∀ {l : TrackMap} {best : Option String} {bIOU : Option ℚ},
      (∀ k t, (k, t) ∈ l → t.boundingBox ≠ none) →
      ∃ r, matchLostLoop det l best bIOU = .ok r
  | [], best, _, _ => ⟨best, rfl⟩
  | (id0, track) :: rest, best, bIOU, hbox => by
    have htail : ∀ k t, (k, t) ∈ rest → t.boundingBox ≠ none :=
      fun k t ht => hbox k t (List.mem_cons_of_mem _ ht)
    simp only [matchLostLoop]
    by_cases hcl : track.className = det.className
    · rw [if_pos hcl]
      cases hdb : det.boundingBox with
      | none => exact absurd hdb hdet
      | some db =>
        cases htb : track.boundingBox with
        | none => exact absurd htb (hbox id0 track (List.mem_cons_self _ _))
        | some tb =>
          cases hiou : calculateIoU db tb with
          | none => simp only [hiou]; exact matchLostLoop_ok_of_boxed hdet htail
          | some iou =>
            simp only [hiou]
            by_cases hc : jsGtOptOpt (some iou) bIOU = true
            · rw [if_pos hc]
              exact matchLostLoop_ok_of_boxed hdet htail
            · rw [if_neg hc]
              exact matchLostLoop_ok_of_boxed hdet htail
    · rw [if_neg hcl]
      exact matchLostLoop_ok_of_boxed hdet htail

lemma finishTrack_boundingBox (mc : Option ℚ) (t : TrackedObject) :
    (finishTrack mc t).boundingBox = t.boundingBox := by
  rw [finishTrack]; split <;> rfl

lemma finishTrack_id (mc : Option ℚ) (t : TrackedObject) :
    (finishTrack mc t).id = t.id := by
  rw [finishTrack]; split <;> rfl

lemma finishTrack_hits (mc : Option ℚ) (t : TrackedObject) :
    (finishTrack mc t).hits = t.hits := by
  rw [finishTrack]; split <;> rfl

lemma processOneDet_ok_of_boxed {st : TrackSettings} {now : ℚ} {a : AssocState}
    {det : Det} (hdet : det.boundingBox ≠ none)
    (htr : BoxedMap a.tracks) (hlo : BoxedMap a.lostTracks) :
    ∃ a', processOneDet (some st) now a det = .ok a' ∧
      BoxedMap a'.tracks ∧ BoxedMap a'.lostTracks := by
  have hActive : ∀ (tid : String),
      ∃ a', applyActiveMatch now (st.minConfirmationFrames det.className)
          (st.movementThreshold det.className) det a tid = .ok a' ∧
        BoxedMap a'.tracks ∧ BoxedMap a'.lostTracks := by
    intro tid
    rw [applyActiveMatch]
    cases hg : mapGet a.tracks tid with
    | none => exact ⟨a, rfl, htr, hlo⟩
    | some track =>
      cases htb : track.boundingBox with
      | none => exact absurd htb (htr tid track (mapGet_mem hg))
      | some tb =>
        cases hdb : det.boundingBox with
        | none => exact absurd hdb hdet
        | some db =>
          simp only [htb, centroidDist2]
          refine ⟨_, rfl, ?_, hlo⟩
          intro k t hmem
          rcases mapSet_mem hmem with h1 | h2
          · exact htr k t h1
          · cases h2
            simp [finishTrack_boundingBox, matchedTrackUpdate, hdb]
  have hLostNew :
      ∃ a', tryLostThenNew (some st) now (st.minConfirmationFrames det.className)
          (st.movementThreshold det.className) det a = .ok a' ∧
        BoxedMap a'.tracks ∧ BoxedMap a'.lostTracks := by
    have hCreate : BoxedMap (createTrack now
        (st.minConfirmationFrames det.className) det a).tracks ∧
        BoxedMap (createTrack now
        (st.minConfirmationFrames det.className) det a).lostTracks := by
      constructor
      · intro k t hmem
        rcases mapSet_mem hmem with h1 | h2
        · exact htr k t h1
        · cases h2
          cases hdb : det.boundingBox with
          | none => exact absurd hdb hdet
          | some db =>
            rw [newTrack]
            split <;> simp [hdb]
      · exact hlo
    rw [tryLostThenNew, matchWithLostTracks]
    simp only [jsIndexSettings]
    obtain ⟨r, hr⟩ := @matchLostLoop_ok_of_boxed det hdet
      a.lostTracks none (st.iouThreshold det.className) hlo
    cases r with
    | none =>
      simp only [hr]
      exact ⟨_, rfl, hCreate⟩
    | some lid =>
      simp only [hr]
      by_cases hass : lid ∈ a.assignedTracks
      · rw [if_pos hass]
        exact ⟨_, rfl, hCreate⟩
      · rw [if_neg hass]
        rw [applyLostMatch]
        cases hg : mapGet a.lostTracks lid with
        | none => exact ⟨a, rfl, htr, hlo⟩
        | some track =>
          cases htb : track.boundingBox with
          | none => exact absurd htb (hlo lid track (mapGet_mem hg))
          | some tb =>
            cases hdb : det.boundingBox with
            | none => exact absurd hdb hdet
            | some db =>
              simp only [htb, centroidDist2]
              refine ⟨_, rfl, ?_, ?_⟩
              · intro k t hmem
                rcases mapSet_mem hmem with h1 | h2
                · exact htr k t h1
                · cases h2
                  simp [finishTrack_boundingBox, revivedTrackUpdate, hdb]
              · intro k t hmem
                exact hlo k t (mapDelete_subset hmem)
  rw [processOneDet]
  obtain ⟨m, hm⟩ := @matchActiveLoop_ok_of_boxed st det hdet
    a.tracks none 0 htr
  rw [matchWithActiveTracks, hm]
  simp only [jsIndexSettings]
  cases m with
  | none => exact hLostNew
  | some tid =>
    dsimp only
    by_cases hass : tid ∈ a.assignedTracks
    · rw [if_pos hass]
      exact hLostNew
    · rw [if_neg hass]
      exact hActive tid

lemma processList_ok_of_boxed {st : TrackSettings} {now : ℚ} :
    ∀ {dets : List Det} {a : AssocState},
      (∀ d ∈ dets, d.boundingBox ≠ none) →
      BoxedMap a.tracks → BoxedMap a.lostTracks →
      ∃ a', dets.foldlM (processOneDet (some st) now) a = .ok a' ∧
        BoxedMap a'.tracks ∧ BoxedMap a'.lostTracks
  | [], a, _, htr, hlo => ⟨a, rfl, htr, hlo⟩
  | d :: ds, a, hbox, htr, hlo => by
    obtain ⟨a1, h1, htr1, hlo1⟩ := processOneDet_ok_of_boxed (a := a)
      (hbox d (List.mem_cons_self d ds)) htr hlo
    obtain ⟨a', h', htr', hlo'⟩ := processList_ok_of_boxed (a := a1)
      (fun x hx => hbox x (List.mem_cons_of_mem d hx)) htr1 hlo1
    refine ⟨a', ?_, htr', hlo'⟩
    rw [List.foldlM_cons, h1]
    simpa [bind, Except.bind] using h'

lemma processWithIOU_ok_of_boxed {st : TrackSettings} {now : ℚ}
    {tracks lostTracks : TrackMap} {nextTrackId : ℕ} {dets : List Det}
    (hbox : ∀ d ∈ dets, d.boundingBox ≠ none)
    (htr : BoxedMap tracks) (hlo : BoxedMap lostTracks) :
    ∃ a, processWithIOU (some st) now tracks lostTracks nextTrackId dets = .ok a ∧
      BoxedMap a.tracks ∧ BoxedMap a.lostTracks :=
  processList_ok_of_boxed hbox htr hlo

lemma prefilter_ok_inv {dets : List Det} {dims : ℚ × ℚ}
    {s : Option TrackSettings} {out : List Det}
    (h : prefilterDetections dets dims s = .ok out) :
    ∃ l1 l2, filterLargeDetections dets dims = .ok l1 ∧
      filterBySettings l1 s = .ok l2 ∧
      filterOverlappedDetections l2 s = .ok out := by
  rw [prefilterDetections] at h
  cases h1 : filterLargeDetections dets dims with
  | error e =>
    simp only [h1, bind, Except.bind] at h
    exact absurd h (by simp)
  | ok l1 =>
    simp only [h1, bind, Except.bind] at h
    cases h2 : filterBySettings l1 s with
    | error e =>
      simp only [h2] at h
      exact absurd h (by simp)
    | ok l2 =>
      simp only [h2] at h
      exact ⟨l1, l2, rfl, h2, h⟩

lemma filterBySettings_mem_enabled {dets : List Det} {st : TrackSettings}
    {ec : List String} {l2 : List Det} {d : Det}
    (hec : st.enabledClasses = some ec)
    (h : filterBySettings dets (some st) = .ok l2) (hd : d ∈ l2) :
    d.className ∈ ec := by
  rw [filterBySettings] at h
  by_cases hemp : dets.isEmpty
  · rw [if_pos hemp] at h
    cases h
    exact absurd hd (List.not_mem_nil d)
  · rw [if_neg hemp] at h
    rw [hec] at h
    simp only [Except.ok.injEq] at h
    subst h
    have := List.of_mem_filter hd
    simp only [Bool.and_eq_true, decide_eq_true_eq] at this
    exact this.1

lemma filterOverlapped_ok_subset {l : List Det} {s : Option TrackSettings}
    {out : List Det} (h : filterOverlappedDetections l s = .ok out) :
    ∀ d ∈ out, d ∈ l := by
  by_cases hemp : l.isEmpty
  · rw [filterOverlappedDetections, if_pos hemp] at h
    cases h
    intro d hd
    exact absurd hd (List.not_mem_nil d)
  · rw [filterOverlappedDetections, if_neg hemp] at h
    intro d hd
    exact mem_sortByScoreDesc.mp ((nmsLoopF_ok_sublist h).subset hd)

/-- Claim C1 (corrected): the update pipeline does not silently pass
malformed detections through.  With every detection carrying a bounding box
and the session settings carrying `enabledClasses`, `update` never throws;
but a detection *missing* its `boundingBox` makes `update` throw (the
oversize filter destructures `det.boundingBox` for every detection), and a
`"motion"` detection is not special-cased: when `"motion"` is not among
`enabledClasses` it is dropped by the settings filter rather than passed
through. -/
theorem claim_C1 (st : TrackerState) (detected : Detected) (basic : Bool)
    (now : ℚ) (s : TrackSettings) (ec : List String)
    (hs : st.session = some s) (hec : s.enabledClasses = some ec)
    (htr : BoxedMap st.tracks) (hlo : BoxedMap st.lostTracks) :
    ((∀ d ∈ detected.detections.getD [], d.boundingBox ≠ none) →
       ∃ res, ObjectTracker.update st detected basic now = .ok res)
    ∧ ((∃ d ∈ detected.detections.getD [], d.boundingBox = none) →
       ∃ e, ObjectTracker.update st detected basic now = .error e)
    ∧ ("motion" ∉ ec →
       ∀ out, prefilterDetections (detected.detections.getD [])
           detected.inputDimensions (some s) = .ok out →
         ∀ d ∈ out, d.className ≠ "motion") := by
  refine ⟨?_, ?_, ?_⟩
  · intro hbox
    obtain ⟨out, hout, hmem⟩ := @prefilter_ok_of_boxed _
      detected.inputDimensions _ _ hbox hec
    rw [ObjectTracker.update]
    simp only [hs, hout]
    cases basic with
    | true => exact ⟨_, rfl⟩
    | false =>
      obtain ⟨a, ha, _, _⟩ := @processWithIOU_ok_of_boxed s now st.tracks
        st.lostTracks st.nextTrackId out
        (fun d hd => hbox d (hmem d hd)) htr hlo
      simp only [Bool.false_eq_true, if_false, ha]
      exact ⟨_, rfl⟩
  · intro ⟨d, hd, hnone⟩
    have hpd : largeKeep
        (detected.inputDimensions.1 * detected.inputDimensions.2) (95 / 100) d =
        .error "TypeError: det.boundingBox is not iterable" := by
      simp only [largeKeep, hnone]
    obtain ⟨e, he⟩ := exceptFilter_error_of_mem hd hpd
    have hpre : prefilterDetections (detected.detections.getD [])
        detected.inputDimensions (some s) = .error e := by
      rw [prefilterDetections]
      have : filterLargeDetections (detected.detections.getD [])
          detected.inputDimensions = .error e := he
      simp only [this, bind, Except.bind]
    refine ⟨e, ?_⟩
    rw [ObjectTracker.update]
    simp only [hs, hpre]
  · intro hmot out hout d hd
    obtain ⟨l1, l2, h1, h2, h3⟩ := prefilter_ok_inv hout
    have hd2 : d ∈ l2 := filterOverlapped_ok_subset h3 d hd
    have := filterBySettings_mem_enabled hec h2 hd2
    intro hcl
    rw [hcl] at this
    exact hmot this

/-- Counterexample for C1: `ObjectTracker.update` on a frame containing a
detection without a `boundingBox` throws a `TypeError` (in
`filterLargeDetections`' destructuring) instead of passing the detection
through. -/
theorem claim_C1_cex :
    ObjectTracker.update (mkObjectTracker "ab" (some sampleSettings))
      { detections := some [c1NoBoxDet], inputDimensions := (1000, 1000) }
      false 0 = .error "TypeError: det.boundingBox is not iterable" := rfl

/-- Witness for C1 at a concrete input: a well-formed frame makes `update`
succeed. -/
theorem claim_C1_witness :
    ∃ res, ObjectTracker.update (mkObjectTracker "ab" (some sampleSettings))
      { detections := some [wellFormedDet], inputDimensions := (1000, 1000) }
      false 5 = .ok res :=
  (claim_C1 (mkObjectTracker "ab" (some sampleSettings))
    { detections := some [wellFormedDet], inputDimensions := (1000, 1000) }
    false 5 sampleSettings ["person"] rfl rfl
    (fun k t h => absurd h (List.not_mem_nil (k, t)))
    (fun k t h => absurd h (List.not_mem_nil (k, t)))).1
    (by decide)

/-! ## Track ids: `toString36` is injective, so ids are never reused -/

lemma digit36_roundtrip : ∀ d < 36, ofDigit36 (digit36 d) = d := by decide

lemma decode36_append (l : List Char) (c : Char) :
    decode36 (l ++ [c]) = decode36 l * 36 + ofDigit36 c := by
  simp [decode36, List.foldl_append]

lemma decode36_toString36Digits :
    ∀ (fuel n : ℕ), n ≤ fuel → decode36 (toString36Digits fuel n) = n
  | 0, n, h => by
    have hn : n = 0 := Nat.le_zero.mp h
    subst hn
    simp only [toString36Digits, decode36, List.foldl_cons, List.foldl_nil,
      Nat.zero_mul, Nat.zero_add]
    exact digit36_roundtrip 0 (by norm_num)
  | fuel + 1, n, h => by
    by_cases h36 : n < 36
    · simp only [toString36Digits, if_pos h36, decode36, List.foldl_cons,
        List.foldl_nil, Nat.zero_mul, Nat.zero_add]
      exact digit36_roundtrip n h36
    · rw [toString36Digits, if_neg h36, decode36_append]
      have hdiv : n / 36 ≤ fuel := by
        have : n / 36 < n := Nat.div_lt_self (by omega) (by norm_num)
        omega
      rw [decode36_toString36Digits fuel (n / 36) hdiv,
        digit36_roundtrip (n % 36) (Nat.mod_lt n (by norm_num))]
      omega

lemma toString36_injective : Function.Injective toString36 := by
  intro m n h
  have hdata : toString36Digits m m = toString36Digits n n :=
    congrArg String.data h
  have hm := decode36_toString36Digits m m (le_refl m)
  have hn := decode36_toString36Digits n n (le_refl n)
  rw [hdata, hn] at hm
  exact hm.symm

/-! ## Map-key bookkeeping for the two track maps -/

lemma mapSet_keys_of_mem : ∀ {m : TrackMap} {k : String} {v : TrackedObject},
    k ∈ m.map Prod.fst → (mapSet m k v).map Prod.fst = m.map Prod.fst
  | [], k, v, h => by simp at h
  | (k0, v0) :: rest, k, v, h => by
    by_cases hk : k0 = k
    · rw [mapSet, if_pos hk]
      simp [hk]
    · rw [mapSet, if_neg hk]
      have hmem : k ∈ rest.map Prod.fst := by
        simp only [List.map_cons, List.mem_cons] at h
        rcases h with h | h
        · exact absurd h.symm hk
        · exact h
      simp [mapSet_keys_of_mem hmem]

lemma mapSet_keys_of_not_mem : ∀ {m : TrackMap} {k : String} {v : TrackedObject},
    k ∉ m.map Prod.fst → (mapSet m k v).map Prod.fst = m.map Prod.fst ++ [k]
  | [], k, v, _ => rfl
  | (k0, v0) :: rest, k, v, h => by
    have hk : k0 ≠ k := by
      intro he
      exact h (by simp [he])
    rw [mapSet, if_neg hk]
    have hrest : k ∉ rest.map Prod.fst := by
      intro hc
      exact h (by simp [hc])
    simp [mapSet_keys_of_not_mem hrest]

lemma mapDelete_keys : ∀ {m : TrackMap} {k : String},
    (mapDelete m k).map Prod.fst =
      (m.map Prod.fst).filter (fun x => !decide (x = k))
  | [], k => rfl
  | (k0, v0) :: rest, k => by
    by_cases hk : k0 = k
    · rw [mapDelete, if_pos hk]
      simp [hk, mapDelete_keys (m := rest)]
    · rw [mapDelete, if_neg hk]
      simp [hk, mapDelete_keys (m := rest)]

lemma mapGet_mem_keys {m : TrackMap} {k : String} {t : TrackedObject}
    (h : mapGet m k = some t) : k ∈ m.map Prod.fst :=
  List.mem_map_of_mem Prod.fst (mapGet_mem h)

lemma toString36_fresh {keys : List String} {next : ℕ}
    (hfr : ∀ k ∈ keys, ∃ j, j < next ∧ k = toString36 j) :
    toString36 next ∉ keys := by
  intro hc
  obtain ⟨j, hj, he⟩ := hfr _ hc
  have := toString36_injective he
  omega

lemma applyActiveMatch_inv {now : ℚ} {mc mt : Option ℚ} {det : Det}
    {a : AssocState} {tid : String} {a' : AssocState}
    (hinv : MapsInv a.tracks a.lostTracks a.nextTrackId)
    (h : applyActiveMatch now mc mt det a tid = .ok a') :
    MapsInv a'.tracks a'.lostTracks a'.nextTrackId := by
  rw [applyActiveMatch] at h
  cases hg : mapGet a.tracks tid with
  | none =>
    simp only [hg, Except.ok.injEq] at h
    subst h
    exact hinv
  | some track =>
    simp only [hg] at h
    cases hd2 : centroidDist2 track.boundingBox det.boundingBox with
    | error e =>
      simp only [hd2] at h
      exact absurd h (by simp)
    | ok d2 =>
      simp only [hd2, Except.ok.injEq] at h
      subst h
      have hkeys : (mapSet a.tracks tid
          (finishTrack mc (matchedTrackUpdate now mc mt det track d2))).map
            Prod.fst = a.tracks.map Prod.fst :=
        mapSet_keys_of_mem (mapGet_mem_keys hg)
      refine ⟨?_, hinv.idLost, ?_, hinv.nodupLost, ?_, ?_, hinv.freshLost⟩
      · intro k t hmem
        rcases mapSet_mem hmem with h1 | h2
        · exact hinv.idTracks k t h1
        · cases h2
          rw [finishTrack_id]
          exact hinv.idTracks tid track (mapGet_mem hg)
      · rw [hkeys]
        exact hinv.nodupTracks
      · intro k hk
        rw [hkeys] at hk
        exact hinv.disj k hk
      · intro k hk
        rw [hkeys] at hk
        exact hinv.freshTracks k hk

lemma applyLostMatch_inv {now : ℚ} {mc mt : Option ℚ} {det : Det}
    {a : AssocState} {lid : String} {a' : AssocState}
    (hinv : MapsInv a.tracks a.lostTracks a.nextTrackId)
    (h : applyLostMatch now mc mt det a lid = .ok a') :
    MapsInv a'.tracks a'.lostTracks a'.nextTrackId := by
  rw [applyLostMatch] at h
  cases hg : mapGet a.lostTracks lid with
  | none =>
    simp only [hg, Except.ok.injEq] at h
    subst h
    exact hinv
  | some track =>
    simp only [hg] at h
    cases hd2 : centroidDist2 track.boundingBox det.boundingBox with
    | error e =>
      simp only [hd2] at h
      exact absurd h (by simp)
    | ok d2 =>
      simp only [hd2, Except.ok.injEq] at h
      subst h
      have hid : track.id = lid := hinv.idLost lid track (mapGet_mem hg)
      have hid1 : (revivedTrackUpdate now mc mt det track d2).id = lid := hid
      have hlidlost : lid ∈ a.lostTracks.map Prod.fst := mapGet_mem_keys hg
      have hlidnot : lid ∉ a.tracks.map Prod.fst := by
        intro hc
        exact hinv.disj lid hc hlidlost
      have hkeys : (mapSet a.tracks
          (revivedTrackUpdate now mc mt det track d2).id
          (finishTrack mc (revivedTrackUpdate now mc mt det track d2))).map
            Prod.fst = a.tracks.map Prod.fst ++ [lid] := by
        rw [hid1]
        exact mapSet_keys_of_not_mem hlidnot
      have hdelkeys : (mapDelete a.lostTracks
          (revivedTrackUpdate now mc mt det track d2).id).map Prod.fst =
          (a.lostTracks.map Prod.fst).filter (fun x => !decide (x = lid)) := by
        rw [hid1]
        exact mapDelete_keys
      have hdelsub : ∀ k, k ∈ (mapDelete a.lostTracks
          (revivedTrackUpdate now mc mt det track d2).id).map Prod.fst →
          k ∈ a.lostTracks.map Prod.fst ∧ k ≠ lid := by
        intro k hk
        rw [hdelkeys] at hk
        have := List.mem_filter.mp hk
        refine ⟨this.1, ?_⟩
        have h2 := this.2
        simpa using h2
      refine ⟨?_, ?_, ?_, ?_, ?_, ?_, ?_⟩
      · intro k t hmem
        rcases mapSet_mem hmem with h1 | h2
        · exact hinv.idTracks k t h1
        · cases h2
          rw [finishTrack_id]
      · intro k t hmem
        exact hinv.idLost k t (mapDelete_subset hmem)
      · rw [hkeys, List.nodup_append]
        refine ⟨hinv.nodupTracks, List.nodup_singleton _, ?_⟩
        intro y hy hz
        simp only [List.mem_singleton] at hz
        subst hz
        exact hlidnot hy
      · rw [hdelkeys]
        exact (hinv.nodupLost).filter _
      · intro k hk
        rw [hkeys] at hk
        intro hc
        obtain ⟨hmem, hne⟩ := hdelsub k hc
        rcases List.mem_append.mp hk with h1 | h1
        · exact hinv.disj k h1 hmem
        · simp only [List.mem_singleton] at h1
          exact hne h1
      · intro k hk
        rw [hkeys] at hk
        rcases List.mem_append.mp hk with h1 | h1
        · exact hinv.freshTracks k h1
        · simp only [List.mem_singleton] at h1
          subst h1
          exact hinv.freshLost k hlidlost
      · intro k hk
        exact hinv.freshLost k (hdelsub k hk).1

lemma createTrack_inv {now : ℚ} {mc : Option ℚ} {det : Det} {a : AssocState}
    (hinv : MapsInv a.tracks a.lostTracks a.nextTrackId) :
    MapsInv (createTrack now mc det a).tracks
      (createTrack now mc det a).lostTracks
      (createTrack now mc det a).nextTrackId := by
  have hfreshT : toString36 a.nextTrackId ∉ a.tracks.map Prod.fst :=
    toString36_fresh hinv.freshTracks
  have hfreshL : toString36 a.nextTrackId ∉ a.lostTracks.map Prod.fst :=
    toString36_fresh hinv.freshLost
  have hkeys : ((createTrack now mc det a).tracks).map Prod.fst =
      a.tracks.map Prod.fst ++ [toString36 a.nextTrackId] :=
    mapSet_keys_of_not_mem hfreshT
  have hnext : (createTrack now mc det a).nextTrackId = a.nextTrackId + 1 := rfl
  rw [hnext]
  refine ⟨?_, hinv.idLost, ?_, hinv.nodupLost, ?_, ?_, ?_⟩
  · intro k t hmem
    rcases mapSet_mem hmem with h1 | h2
    · exact hinv.idTracks k t h1
    · cases h2
      rw [newTrack]
      split <;> rfl
  · rw [hkeys, List.nodup_append]
    refine ⟨hinv.nodupTracks, List.nodup_singleton _, ?_⟩
    intro y hy hz
    simp only [List.mem_singleton] at hz
    subst hz
    exact hfreshT hy
  · intro k hk
    rw [hkeys] at hk
    rcases List.mem_append.mp hk with h1 | h1
    · exact hinv.disj k h1
    · simp only [List.mem_singleton] at h1
      subst h1
      exact hfreshL
  · intro k hk
    rw [hkeys] at hk
    rcases List.mem_append.mp hk with h1 | h1
    · obtain ⟨j, hj, he⟩ := hinv.freshTracks k h1
      exact ⟨j, by omega, he⟩
    · simp only [List.mem_singleton] at h1
      subst h1
      exact ⟨a.nextTrackId, by omega, rfl⟩
  · intro k hk
    obtain ⟨j, hj, he⟩ := hinv.freshLost k hk
    exact ⟨j, by omega, he⟩

lemma tryLostThenNew_inv {s : Option TrackSettings} {now : ℚ}
    {mc mt : Option ℚ} {det : Det} {a a' : AssocState}
    (hinv : MapsInv a.tracks a.lostTracks a.nextTrackId)
    (h : tryLostThenNew s now mc mt det a = .ok a') :
    MapsInv a'.tracks a'.lostTracks a'.nextTrackId := by
  rw [tryLostThenNew] at h
  cases hm : matchWithLostTracks s a.lostTracks det with
  | error e =>
    simp only [hm] at h
    exact absurd h (by simp)
  | ok lostMatchId =>
    simp only [hm] at h
    cases lostMatchId with
    | none =>
      simp only [Except.ok.injEq] at h
      subst h
      exact createTrack_inv hinv
    | some lid =>
      dsimp only at h
      by_cases hass : lid ∈ a.assignedTracks
      · rw [if_pos hass] at h
        simp only [Except.ok.injEq] at h
        subst h
        exact createTrack_inv hinv
      · rw [if_neg hass] at h
        exact applyLostMatch_inv hinv h

lemma processOneDet_inv {s : Option TrackSettings} {now : ℚ} {a a' : AssocState}
    {det : Det} (hinv : MapsInv a.tracks a.lostTracks a.nextTrackId)
    (h : processOneDet s now a det = .ok a') :
    MapsInv a'.tracks a'.lostTracks a'.nextTrackId := by
  rw [processOneDet] at h
  cases hm : matchWithActiveTracks s a.tracks det with
  | error e =>
    simp only [hm] at h
    exact absurd h (by simp)
  | ok matchId =>
    simp only [hm] at h
    cases hs : s with
    | none =>
      simp only [hs, jsIndexSettings] at h
      exact absurd h (by simp)
    | some st =>
      simp only [hs, jsIndexSettings] at h
      cases matchId with
      | none => exact tryLostThenNew_inv hinv h
      | some tid =>
        dsimp only at h
        by_cases hass : tid ∈ a.assignedTracks
        · rw [if_pos hass] at h
          exact tryLostThenNew_inv hinv h
        · rw [if_neg hass] at h
          exact applyActiveMatch_inv hinv h

lemma processList_inv {s : Option TrackSettings} {now : ℚ} :
    ∀ {dets : List Det} {a a' : AssocState},
      MapsInv a.tracks a.lostTracks a.nextTrackId →
      dets.foldlM (processOneDet s now) a = .ok a' →
      MapsInv a'.tracks a'.lostTracks a'.nextTrackId
  | [], a, a', hinv, h => by
    simp only [List.foldlM_nil] at h
    cases h
    exact hinv
  | d :: ds, a, a', hinv, h => by
    rw [List.foldlM_cons] at h
    cases h1 : processOneDet s now a d with
    | error e =>
      rw [h1] at h
      simp [bind, Except.bind] at h
    | ok a1 =>
      rw [h1] at h
      simp only [bind, Except.bind] at h
      exact processList_inv (processOneDet_inv hinv h1) h

lemma processWithIOU_inv {s : Option TrackSettings} {now : ℚ}
    {tracks lostTracks : TrackMap} {nextTrackId : ℕ} {dets : List Det}
    {a : AssocState} (hinv : MapsInv tracks lostTracks nextTrackId)
    (h : processWithIOU s now tracks lostTracks nextTrackId dets = .ok a) :
    MapsInv a.tracks a.lostTracks a.nextTrackId :=
  processList_inv hinv h

lemma mapsInv_append_left {m1 m2 : TrackMap} {next : ℕ} {k : String}
    {t : TrackedObject} (hinv : MapsInv m1 m2 next) (hid : t.id = k)
    (h1 : k ∉ m1.map Prod.fst) (h2 : k ∉ m2.map Prod.fst)
    (hfr : ∃ j, j < next ∧ k = toString36 j) :
    MapsInv (m1 ++ [(k, t)]) m2 next := by
  refine ⟨?_, hinv.idLost, ?_, hinv.nodupLost, ?_, ?_, hinv.freshLost⟩
  · intro k' t' hmem
    rcases List.mem_append.mp hmem with h | h
    · exact hinv.idTracks k' t' h
    · simp only [List.mem_singleton] at h
      cases h
      exact hid
  · rw [List.map_append, List.nodup_append]
    refine ⟨hinv.nodupTracks, by simp, ?_⟩
    intro y hy hz
    simp only [List.map_cons, List.map_nil, List.mem_singleton] at hz
    subst hz
    exact h1 hy
  · intro k' hk'
    rw [List.map_append] at hk'
    rcases List.mem_append.mp hk' with h | h
    · exact hinv.disj k' h
    · simp only [List.map_cons, List.map_nil, List.mem_singleton] at h
      subst h
      exact h2
  · intro k' hk'
    rw [List.map_append] at hk'
    rcases List.mem_append.mp hk' with h | h
    · exact hinv.freshTracks k' h
    · simp only [List.map_cons, List.map_nil, List.mem_singleton] at h
      subst h
      exact hfr

lemma mapsInv_set_right {m1 m2 : TrackMap} {next : ℕ} {k : String}
    {t : TrackedObject} (hinv : MapsInv m1 m2 next) (hid : t.id = k)
    (h1 : k ∉ m1.map Prod.fst) (h2 : k ∉ m2.map Prod.fst)
    (hfr : ∃ j, j < next ∧ k = toString36 j) :
    MapsInv m1 (mapSet m2 k t) next := by
  have hkeys : (mapSet m2 k t).map Prod.fst = m2.map Prod.fst ++ [k] :=
    mapSet_keys_of_not_mem h2
  refine ⟨hinv.idTracks, ?_, hinv.nodupTracks, ?_, ?_, hinv.freshTracks, ?_⟩
  · intro k' t' hmem
    rcases mapSet_mem hmem with h | h
    · exact hinv.idLost k' t' h
    · cases h
      exact hid
  · rw [hkeys, List.nodup_append]
    refine ⟨hinv.nodupLost, by simp, ?_⟩
    intro y hy hz
    simp only [List.mem_singleton] at hz
    subst hz
    exact h2 hy
  · intro k' hk' hc
    rw [hkeys] at hc
    rcases List.mem_append.mp hc with h | h
    · exact hinv.disj k' hk' h
    · simp only [List.mem_singleton] at h
      subst h
      exact h1 hk'
  · intro k' hk'
    rw [hkeys] at hk'
    rcases List.mem_append.mp hk' with h | h
    · exact hinv.freshLost k' h
    · simp only [List.mem_singleton] at h
      subst h
      exact hfr

lemma applyMissFold_inv {maxMisses : ℕ} {updated : List String} {next : ℕ} :
    ∀ {rem : List (String × TrackedObject)} {acc : TrackMap × TrackMap},
      MapsInv acc.1 acc.2 next →
      (∀ k t, (k, t) ∈ rem → t.id = k) →
      ((rem.map Prod.fst).Nodup) →
      (∀ k, k ∈ rem.map Prod.fst → k ∉ acc.1.map Prod.fst) →
      (∀ k, k ∈ rem.map Prod.fst → k ∉ acc.2.map Prod.fst) →
      (∀ k ∈ rem.map Prod.fst, ∃ j, j < next ∧ k = toString36 j) →
      MapsInv (rem.foldl (applyMissOne maxMisses updated) acc).1
        (rem.foldl (applyMissOne maxMisses updated) acc).2 next
  | [], acc, hinv, _, _, _, _, _ => hinv
  | (k, t) :: rem, acc, hinv, hid, hnd, hd1, hd2, hfr => by
    rw [List.foldl_cons]
    have hk1 : k ∉ acc.1.map Prod.fst := hd1 k (by simp)
    have hk2 : k ∉ acc.2.map Prod.fst := hd2 k (by simp)
    have hkid : t.id = k := hid k t (List.mem_cons_self _ _)
    have hkfr : ∃ j, j < next ∧ k = toString36 j := hfr k (by simp)
    have hknotrem : k ∉ rem.map Prod.fst := by
      simp only [List.map_cons, List.nodup_cons] at hnd
      exact hnd.1
    have htl_id : ∀ k' t', (k', t') ∈ rem → t'.id = k' :=
      fun k' t' h => hid k' t' (List.mem_cons_of_mem _ h)
    have htl_nd : (rem.map Prod.fst).Nodup := by
      simp only [List.map_cons, List.nodup_cons] at hnd
      exact hnd.2
    have htl_fr : ∀ k' ∈ rem.map Prod.fst, ∃ j, j < next ∧ k' = toString36 j :=
      fun k' h => hfr k' (by simp [h])
    by_cases hupd : k ∈ updated
    · have hstep : applyMissOne maxMisses updated acc (k, t) =
          (acc.1 ++ [(k, t)], acc.2) := by
        rw [applyMissOne]
        simp [hupd]
      rw [hstep]
      refine applyMissFold_inv
        (mapsInv_append_left hinv hkid hk1 hk2 hkfr) htl_id htl_nd ?_ ?_ htl_fr
      · intro k' hk'
        simp only [List.map_append]
        rw [List.mem_append]
        rintro (hc | hc)
        · exact hd1 k' (by simp [hk']) hc
        · simp only [List.map_cons, List.map_nil, List.mem_singleton] at hc
          subst hc
          exact hknotrem hk'
      · intro k' hk'
        exact hd2 k' (by simp [hk'])
    · by_cases hmiss : maxMisses ≤ t.misses + 1
      · have hstep : applyMissOne maxMisses updated acc (k, t) =
            (acc.1, mapSet acc.2 k
              { t with misses := t.misses + 1, lostFrames := 0 }) := by
          rw [applyMissOne]
          simp [hupd, hmiss, hkid]
        rw [hstep]
        refine applyMissFold_inv
          (mapsInv_set_right hinv (by exact hkid) hk1 hk2 hkfr)
          htl_id htl_nd ?_ ?_ htl_fr
        · intro k' hk'
          exact hd1 k' (by simp [hk'])
        · intro k' hk'
          have hkeys : (mapSet acc.2 k
              { t with misses := t.misses + 1, lostFrames := 0 }).map Prod.fst =
              acc.2.map Prod.fst ++ [k] := mapSet_keys_of_not_mem hk2
          rw [hkeys, List.mem_append]
          rintro (hc | hc)
          · exact hd2 k' (by simp [hk']) hc
          · simp only [List.mem_singleton] at hc
            subst hc
            exact hknotrem hk'
      · have hstep : applyMissOne maxMisses updated acc (k, t) = (acc.1 ++ [(k, { t with misses := t.misses + 1, movement := { t.movement with moving := false } })], acc.2) := by
          rw [applyMissOne]
          simp [hupd, hmiss]
        rw [hstep]
        refine applyMissFold_inv
          (mapsInv_append_left hinv (by exact hkid) hk1 hk2 hkfr)
          htl_id htl_nd ?_ ?_ htl_fr
        · intro k' hk'
          simp only [List.map_append]
          rw [List.mem_append]
          rintro (hc | hc)
          · exact hd1 k' (by simp [hk']) hc
          · simp only [List.map_cons, List.map_nil, List.mem_singleton] at hc
            subst hc
            exact hknotrem hk'
        · intro k' hk'
          exact hd2 k' (by simp [hk'])

lemma applyMisses_inv {maxMisses : ℕ} {updated : List String}
    {tracks lostTracks : TrackMap} {next : ℕ}
    (hinv : MapsInv tracks lostTracks next) :
    MapsInv (applyMisses maxMisses updated tracks lostTracks).1
      (applyMisses maxMisses updated tracks lostTracks).2 next := by
  have hnil : MapsInv ([] : TrackMap) lostTracks next :=
    ⟨fun k t h => absurd h (List.not_mem_nil _), hinv.idLost, by simp,
     hinv.nodupLost, fun k h => absurd h (by simp at h), 
     fun k h => absurd h (by simp at h), hinv.freshLost⟩
  exact applyMissFold_inv hnil hinv.idTracks hinv.nodupTracks
    (fun k _ hc => by simp at hc)
    (fun k hk hc => hinv.disj k hk hc)
    hinv.freshTracks

lemma cleanupFold_mem {mx : ℕ} :
    ∀ {l acc : TrackMap} {e : String × TrackedObject},
      e ∈ l.foldl (cleanupLostStep mx) acc →
      e ∈ acc ∨ ∃ t, (e.1, t) ∈ l ∧ e.2 = { t with lostFrames := t.lostFrames + 1 }
  | [], acc, e, h => Or.inl h
  | (k, t) :: l, acc, e, h => by
    rw [List.foldl_cons] at h
    rcases cleanupFold_mem h with hacc | ⟨t', ht', he⟩
    · rw [cleanupLostStep] at hacc
      split at hacc
      · exact Or.inl hacc
      · rcases List.mem_append.mp hacc with h1 | h1
        · exact Or.inl h1
        · simp only [List.mem_singleton] at h1
          subst h1
          exact Or.inr ⟨t, List.mem_cons_self _ _, rfl⟩
    · exact Or.inr ⟨t', List.mem_cons_of_mem _ ht', he⟩

lemma cleanupFold_keys {mx : ℕ} :
    ∀ {l acc : TrackMap}, ∃ ks,
      (l.foldl (cleanupLostStep mx) acc).map Prod.fst =
        acc.map Prod.fst ++ ks ∧ ks.Sublist (l.map Prod.fst)
  | [], acc => ⟨[], by simp, List.nil_sublist _⟩
  | (k, t) :: l, acc => by
    rw [List.foldl_cons, cleanupLostStep]
    split
    · obtain ⟨ks, hk, hs⟩ := @cleanupFold_keys mx l acc
      exact ⟨ks, hk, List.Sublist.cons _ (by simpa using hs)⟩
    · obtain ⟨ks, hk, hs⟩ := @cleanupFold_keys mx l
        (acc ++ [(k, { t with lostFrames := t.lostFrames + 1 })])
      refine ⟨k :: ks, ?_, ?_⟩
      · rw [hk]
        simp
      · simpa using List.Sublist.cons₂ k hs

lemma cleanupLost_inv {mx : ℕ} {tracks lostTracks : TrackMap} {next : ℕ}
    (hinv : MapsInv tracks lostTracks next) :
    MapsInv tracks (cleanupLost mx lostTracks) next := by
  obtain ⟨ks, hk, hs⟩ := @cleanupFold_keys mx lostTracks []
  have hkeys : (cleanupLost mx lostTracks).map Prod.fst = ks := by
    rw [cleanupLost, hk]
    simp
  have hsub : ∀ k', k' ∈ (cleanupLost mx lostTracks).map Prod.fst →
      k' ∈ lostTracks.map Prod.fst := by
    intro k' hk'
    rw [hkeys] at hk'
    exact hs.subset hk'
  refine ⟨hinv.idTracks, ?_, hinv.nodupTracks, ?_, ?_, hinv.freshTracks, ?_⟩
  · intro k' t' hmem
    rcases cleanupFold_mem hmem with hacc | ⟨t0, ht0, he⟩
    · exact absurd hacc (List.not_mem_nil _)
    · have hid := hinv.idLost k' t0 ht0
      have ht' : t' = { t0 with lostFrames := t0.lostFrames + 1 } := he
      rw [ht']
      exact hid
  · rw [hkeys]
    exact hinv.nodupLost.sublist hs
  · intro k' hk' hc
    exact hinv.disj k' hk' (hsub k' hc)
  · intro k' hk'
    exact hinv.freshLost k' (hsub k' hk')

/-- `MapsInv` holds for the empty maps of a fresh tracker. -/
lemma mapsInv_nil (next : ℕ) : MapsInv [] [] next :=
  ⟨fun _ _ h => absurd h (List.not_mem_nil _),
   fun _ _ h => absurd h (List.not_mem_nil _),
   List.nodup_nil, List.nodup_nil,
   fun _ h => absurd h (by simp at h),
   fun _ h => absurd h (by simp at h),
   fun _ h => absurd h (by simp at h)⟩

/-- One `update` call preserves the structural map invariant. -/
lemma update_inv {st : TrackerState} {detected : Detected} {basic : Bool}
    {now : ℚ} {r : FrameResult} {st' : TrackerState}
    (hinv : MapsInv st.tracks st.lostTracks st.nextTrackId)
    (h : ObjectTracker.update st detected basic now = .ok (r, st')) :
    MapsInv st'.tracks st'.lostTracks st'.nextTrackId := by
  rw [ObjectTracker.update] at h
  cases hpre : prefilterDetections (detected.detections.getD [])
      detected.inputDimensions st.session with
  | error e =>
    simp only [hpre] at h
    exact absurd h (by simp)
  | ok detections =>
    simp only [hpre] at h
    cases basic with
    | true =>
      simp only [if_true, Except.ok.injEq, Prod.mk.injEq] at h
      rw [← h.2]
      exact hinv
    | false =>
      simp only [Bool.false_eq_true, if_false] at h
      cases hproc : processWithIOU st.session now st.tracks st.lostTracks
          st.nextTrackId detections with
      | error e =>
        simp only [hproc] at h
        exact absurd h (by simp)
      | ok a =>
        simp only [hproc, Except.ok.injEq, Prod.mk.injEq] at h
        rw [← h.2]
        have hainv : MapsInv a.tracks a.lostTracks a.nextTrackId :=
          processWithIOU_inv hinv hproc
        have hm := @applyMisses_inv st.maxMisses
          a.updatedTrackIds _ _ _ hainv
        exact cleanupLost_inv hm

/-- Claim C5: the key sets of `tracks` and `lostTracks` stay disjoint across
every `update` call — a track moved to the lost pool is deleted from
`tracks`, and a revived track is re-inserted into `tracks` and deleted from
`lostTracks`; the full structural invariant (ids as keys, unique never-reused
ids, disjointness) is preserved, and holds for a fresh tracker. -/
theorem claim_C5 (st : TrackerState) (detected : Detected) (basic : Bool)
    (now : ℚ) (r : FrameResult) (st' : TrackerState)
    (hinv : MapsInv st.tracks st.lostTracks st.nextTrackId)
    (h : ObjectTracker.update st detected basic now = .ok (r, st')) :
    (∀ k, k ∈ st'.tracks.map Prod.fst → k ∉ st'.lostTracks.map Prod.fst)
    ∧ MapsInv st'.tracks st'.lostTracks st'.nextTrackId
    ∧ (∀ sid settings, MapsInv (mkObjectTracker sid settings).tracks
        (mkObjectTracker sid settings).lostTracks
        (mkObjectTracker sid settings).nextTrackId) :=
  ⟨(update_inv hinv h).disj, update_inv hinv h,
   fun _ _ => mapsInv_nil 1⟩

/-- Witness for C5: after a concrete `update` call on a fresh tracker the
resulting state satisfies the full structural invariant — in particular its
`tracks` and `lostTracks` key sets are disjoint. -/
theorem claim_C5_witness :
    MapsInv ({ mkObjectTracker "ab" (some sampleSettings) with
        currentFrame := 1 } : TrackerState).tracks
      ({ mkObjectTracker "ab" (some sampleSettings) with
        currentFrame := 1 } : TrackerState).lostTracks
      ({ mkObjectTracker "ab" (some sampleSettings) with
        currentFrame := 1 } : TrackerState).nextTrackId :=
  (claim_C5 (mkObjectTracker "ab" (some sampleSettings))
    { detections := none, inputDimensions := (1, 1) } true 0
    { active := [{ className := "motion", score := 1 }], pending := [],
      detectionId := none }
    { mkObjectTracker "ab" (some sampleSettings) with currentFrame := 1 }
    (mapsInv_nil 1) rfl).2.1

/-! ## Sticky confirmation (claim C4) -/

lemma jsGeNatOpt_mono {a : ℕ} {mc : Option ℚ} (h : jsGeNatOpt a mc = true) :
    jsGeNatOpt (a + 1) mc = true := by
  cases mc with
  | none => simp [jsGeNatOpt] at h
  | some q =>
    simp only [jsGeNatOpt, decide_eq_true_eq] at h ⊢
    push_cast
    linarith

lemma finishTrack_active_of {mc : Option ℚ} {t : TrackedObject}
    (h : t.active = true) : (finishTrack mc t).active = true := by
  rw [finishTrack]
  split
  · rfl
  · exact h

lemma finishTrack_active_iff {mc : Option ℚ} {t : TrackedObject} :
    (finishTrack mc t).active = true ↔
      t.active = true ∨ jsGeNatOpt t.hits mc = true ∨ jsFalsyQ mc = true := by
  rw [finishTrack, confirmFire]
  cases ha : t.active with
  | true => simp [ha]
  | false =>
    cases hge : jsGeNatOpt t.hits mc <;> cases hf : jsFalsyQ mc <;>
      simp [ha, hge, hf]

lemma matchedTrackUpdate_active {now : ℚ} {mc mt : Option ℚ} {det : Det}
    {t : TrackedObject} {d2 : ℚ} :
    (matchedTrackUpdate now mc mt det t d2).active =
      (t.active || jsGeNatOpt (t.hits + 1) mc) := rfl

lemma revivedTrackUpdate_active {now : ℚ} {mc mt : Option ℚ} {det : Det}
    {t : TrackedObject} {d2 : ℚ} :
    (revivedTrackUpdate now mc mt det t d2).active =
      jsGeNatOpt (t.hits + 1) mc := rfl

lemma finishTrack_className {mc : Option ℚ} {t : TrackedObject} :
    (finishTrack mc t).className = t.className := by
  rw [finishTrack]
  split <;> rfl

/-- The matched-track update result satisfies `ConfOK` provided the matched
track did (and had the detection's class, as `matchWithActiveTracks`
guarantees). -/
lemma matched_finish_ConfOK {s : TrackSettings} {now : ℚ} {mt : Option ℚ}
    {det : Det} {t : TrackedObject} {d2 : ℚ}
    (hconf : ConfOK s t) (hclass : t.className = det.className) :
    ConfOK s (finishTrack (s.minConfirmationFrames det.className)
      (matchedTrackUpdate now (s.minConfirmationFrames det.className) mt det t d2)) := by
  intro hact
  set mc := s.minConfirmationFrames det.className with hmc
  have hcl : (finishTrack mc
      (matchedTrackUpdate now mc mt det t d2)).className = det.className := by
    rw [finishTrack_className]
    rfl
  have hhits : (finishTrack mc
      (matchedTrackUpdate now mc mt det t d2)).hits = t.hits + 1 := by
    rw [finishTrack_hits]
    rfl
  rw [hcl, ← hmc, hhits]
  rcases finishTrack_active_iff.mp hact with h1 | h2 | h3
  · rw [matchedTrackUpdate_active] at h1
    rcases Bool.or_eq_true_iff.mp h1 with ha | hge
    · rcases hconf ha with hge0 | hf
      · rw [hclass, ← hmc] at hge0
        exact Or.inl (jsGeNatOpt_mono hge0)
      · rw [hclass, ← hmc] at hf
        exact Or.inr hf
    · exact Or.inl hge
  · have heq : (matchedTrackUpdate now mc mt det t d2).hits = t.hits + 1 := rfl
    rw [heq] at h2
    exact Or.inl h2
  · exact Or.inr h3

/-- The matched-track update keeps a confirmed track confirmed
(`track.active = track.active || ...` is sticky). -/
lemma matched_finish_active {now : ℚ} {mc mt : Option ℚ} {det : Det}
    {t : TrackedObject} {d2 : ℚ} (h : t.active = true) :
    (finishTrack mc (matchedTrackUpdate now mc mt det t d2)).active = true := by
  apply finishTrack_active_of
  rw [matchedTrackUpdate_active, h]
  rfl

/-- The revived-track update result satisfies `ConfOK`. -/
lemma revived_finish_ConfOK {s : TrackSettings} {now : ℚ} {mt : Option ℚ}
    {det : Det} {t : TrackedObject} {d2 : ℚ} :
    ConfOK s (finishTrack (s.minConfirmationFrames det.className)
      (revivedTrackUpdate now (s.minConfirmationFrames det.className) mt det t d2)) := by
  intro hact
  set mc := s.minConfirmationFrames det.className with hmc
  have hcl : (finishTrack mc
      (revivedTrackUpdate now mc mt det t d2)).className = det.className := by
    rw [finishTrack_className]
    rfl
  have hhits : (finishTrack mc
      (revivedTrackUpdate now mc mt det t d2)).hits = t.hits + 1 := by
    rw [finishTrack_hits]
    rfl
  rw [hcl, ← hmc, hhits]
  rcases finishTrack_active_iff.mp hact with h1 | h2 | h3
  · rw [revivedTrackUpdate_active] at h1
    exact Or.inl h1
  · have heq : (revivedTrackUpdate now mc mt det t d2).hits = t.hits + 1 := rfl
    rw [heq] at h2
    exact Or.inl h2
  · exact Or.inr h3

/-- Although the revival recomputes `active` from scratch, a confirmed
track with `ConfOK` (and the detection's class) stays confirmed: either its
hits already met the threshold (which is monotone in hits), or the
threshold is falsy and the follow-up confirmation check restores `active`. -/
lemma revived_finish_active {s : TrackSettings} {now : ℚ} {mt : Option ℚ}
    {det : Det} {t : TrackedObject} {d2 : ℚ}
    (hconf : ConfOK s t) (hclass : t.className = det.className)
    (h : t.active = true) :
    (finishTrack (s.minConfirmationFrames det.className)
      (revivedTrackUpdate now (s.minConfirmationFrames det.className) mt det t d2)).active = true := by
  set mc := s.minConfirmationFrames det.className with hmc
  apply finishTrack_active_iff.mpr
  rcases hconf h with hge | hf
  · rw [hclass, ← hmc] at hge
    left
    rw [revivedTrackUpdate_active]
    exact jsGeNatOpt_mono hge
  · rw [hclass, ← hmc] at hf
    right
    right
    exact hf

/-- The freshly created track satisfies `ConfOK`: it is active only if the
instant-confirmation condition `!mc || mc <= 1` held, and it has one hit. -/
lemma newTrack_className {now : ℚ} {mc : Option ℚ} {det : Det} {newId : String} :
    (newTrack now mc det newId).className = det.className := by
  rw [newTrack]
  split <;> rfl

lemma newTrack_hits {now : ℚ} {mc : Option ℚ} {det : Det} {newId : String} :
    (newTrack now mc det newId).hits = 1 := by
  rw [newTrack]
  split <;> rfl

lemma newTrack_active {now : ℚ} {mc : Option ℚ} {det : Det} {newId : String} :
    (newTrack now mc det newId).active = (jsFalsyQ mc || jsLeOpt mc (some 1)) := by
  rw [newTrack]
  split
  · next h => rw [h]
  · next h =>
    simp only [Bool.not_eq_true] at h
    rw [h]

/-- The freshly created track satisfies `ConfOK`: it is active only if the
instant-confirmation condition `!mc || mc <= 1` held, and it has one hit. -/
lemma newTrack_ConfOK {s : TrackSettings} {now : ℚ} {det : Det} {newId : String} :
    ConfOK s (newTrack now (s.minConfirmationFrames det.className) det newId) := by
  intro hact
  set mc := s.minConfirmationFrames det.className with hmc
  rw [newTrack_className, ← hmc, newTrack_hits]
  rw [newTrack_active] at hact
  rcases Bool.or_eq_true_iff.mp hact with hf | hle
  · exact Or.inr hf
  · left
    cases hmcv : mc with
    | none => rw [hmcv] at hle; simp [jsLeOpt] at hle
    | some q =>
      rw [hmcv] at hle
      simp only [jsLeOpt, decide_eq_true_eq] at hle
      simp only [jsGeNatOpt, decide_eq_true_eq]
      push_cast
      linarith

lemma matchActiveLoop_some_class {s : Option TrackSettings} {det : Det} :
    ∀ {l : TrackMap} {best : Option String} {b : ℚ} {i : String},
      matchActiveLoop s det l best b = .ok (some i) →
      (∃ t, (i, t) ∈ l ∧ t.className = det.className) ∨ best = some i
  | [], best, b, i, h => by
    simp only [matchActiveLoop, Except.ok.injEq] at h
    exact Or.inr h
  | (trackId, track) :: rest, best, b, i, h => by
    simp only [matchActiveLoop] at h
    by_cases hcl : track.className = det.className
    · rw [if_pos hcl] at h
      cases hdb : det.boundingBox with
      | none =>
        simp only [hdb] at h
        cases htb : track.boundingBox <;> simp [htb] at h
      | some db =>
        cases htb : track.boundingBox with
        | none =>
          simp only [hdb, htb] at h
          exact absurd h (by simp)
        | some tb =>
          simp only [hdb, htb, jsIndexSettings] at h
          cases hs : s with
          | none => rw [hs] at h; simp at h
          | some st =>
            rw [hs] at h
            simp only [] at h
            cases hiou : calculateIoU db tb with
            | none =>
              simp only [hiou] at h
              rcases matchActiveLoop_some_class h with ⟨t, ht, hc⟩ | hb
              · exact Or.inl ⟨t, List.mem_cons_of_mem _ ht, hc⟩
              · exact Or.inr hb
            | some iou =>
              simp only [hiou] at h
              split at h
              · rcases matchActiveLoop_some_class h with ⟨t, ht, hc⟩ | hb
                · exact Or.inl ⟨t, List.mem_cons_of_mem _ ht, hc⟩
                · rw [Option.some.injEq] at hb
                  subst hb
                  exact Or.inl ⟨track, List.mem_cons_self _ _, hcl⟩
              · rcases matchActiveLoop_some_class h with ⟨t, ht, hc⟩ | hb
                · exact Or.inl ⟨t, List.mem_cons_of_mem _ ht, hc⟩
                · exact Or.inr hb
    · rw [if_neg hcl] at h
      rcases matchActiveLoop_some_class h with ⟨t, ht, hc⟩ | hb
      · exact Or.inl ⟨t, List.mem_cons_of_mem _ ht, hc⟩
      · exact Or.inr hb

lemma matchLostLoop_some_class {det : Det} :
    ∀ {l : TrackMap} {best : Option String} {b : Option ℚ} {i : String},
      matchLostLoop det l best b = .ok (some i) →
      (∃ t, (i, t) ∈ l ∧ t.className = det.className) ∨ best = some i
  | [], best, b, i, h => by
    simp only [matchLostLoop, Except.ok.injEq] at h
    exact Or.inr h
  | (id0, track) :: rest, best, b, i, h => by
    simp only [matchLostLoop] at h
    by_cases hcl : track.className = det.className
    · rw [if_pos hcl] at h
      cases hdb : det.boundingBox with
      | none =>
        simp only [hdb] at h
        cases htb : track.boundingBox <;> simp [htb] at h
      | some db =>
        cases htb : track.boundingBox with
        | none =>
          simp only [hdb, htb] at h
          exact absurd h (by simp)
        | some tb =>
          simp only [hdb, htb] at h
          cases hiou : calculateIoU db tb with
          | none =>
            simp only [hiou] at h
            rcases matchLostLoop_some_class h with ⟨t, ht, hc⟩ | hb
            · exact Or.inl ⟨t, List.mem_cons_of_mem _ ht, hc⟩
            · exact Or.inr hb
          | some iou =>
            simp only [hiou] at h
            split at h
            · rcases matchLostLoop_some_class h with ⟨t, ht, hc⟩ | hb
              · exact Or.inl ⟨t, List.mem_cons_of_mem _ ht, hc⟩
              · rw [Option.some.injEq] at hb
                subst hb
                exact Or.inl ⟨track, List.mem_cons_self _ _, hcl⟩
            · rcases matchLostLoop_some_class h with ⟨t, ht, hc⟩ | hb
              · exact Or.inl ⟨t, List.mem_cons_of_mem _ ht, hc⟩
              · exact Or.inr hb
    · rw [if_neg hcl] at h
      rcases matchLostLoop_some_class h with ⟨t, ht, hc⟩ | hb
      · exact Or.inl ⟨t, List.mem_cons_of_mem _ ht, hc⟩
      · exact Or.inr hb

lemma mem_mapGet : ∀ {m : TrackMap} {k : String} {t : TrackedObject},
    (k, t) ∈ m → (m.map Prod.fst).Nodup → mapGet m k = some t
  | [], k, t, h, _ => absurd h (List.not_mem_nil _)
  | (k0, v0) :: rest, k, t, h, hnd => by
    rcases List.mem_cons.mp h with heq | hmem
    · cases heq
      rw [mapGet, if_pos rfl]
    · have hk : k0 ≠ k := by
        intro he
        subst he
        simp only [List.map_cons, List.nodup_cons] at hnd
        exact hnd.1 (List.mem_map_of_mem Prod.fst hmem)
      rw [mapGet, if_neg hk]
      exact mem_mapGet hmem (by
        simp only [List.map_cons, List.nodup_cons] at hnd
        exact hnd.2)

lemma applyActiveMatch_C4 {s : TrackSettings} {now : ℚ} {mt : Option ℚ}
    {det : Det} {a : AssocState} {tid : String} {a' : AssocState} {k : String}
    (hcls : ∀ t, mapGet a.tracks tid = some t → t.className = det.className)
    (hconf : ConfInv s a.tracks a.lostTracks)
    (hst : StickyP k a.tracks a.lostTracks)
    (h : applyActiveMatch now (s.minConfirmationFrames det.className) mt det a tid = .ok a') :
    ConfInv s a'.tracks a'.lostTracks ∧ StickyP k a'.tracks a'.lostTracks ∧
      a'.nextTrackId = a.nextTrackId := by
  rw [applyActiveMatch] at h
  cases hg : mapGet a.tracks tid with
  | none =>
    simp only [hg, Except.ok.injEq] at h
    subst h
    exact ⟨hconf, hst, rfl⟩
  | some track =>
    simp only [hg] at h
    cases hd2 : centroidDist2 track.boundingBox det.boundingBox with
    | error e =>
      simp only [hd2] at h
      exact absurd h (by simp)
    | ok d2 =>
      simp only [hd2, Except.ok.injEq] at h
      subst h
      have hclass : track.className = det.className := hcls track hg
      have htrackconf : ConfOK s track :=
        hconf tid track (Or.inl (mapGet_mem hg))
      refine ⟨?_, ?_, rfl⟩
      · intro k' t' hmem
        rcases hmem with hmem | hmem
        · rcases mapSet_mem hmem with h1 | h2
          · exact hconf k' t' (Or.inl h1)
          · cases h2
            exact matched_finish_ConfOK htrackconf hclass
        · exact hconf k' t' (Or.inr hmem)
      · intro t' hmem
        rcases hmem with hmem | hmem
        · rcases mapSet_mem hmem with h1 | h2
          · exact hst t' (Or.inl h1)
          · cases h2
            have hactive : track.active = true :=
              hst track (Or.inl (mapGet_mem hg))
            exact matched_finish_active hactive
        · exact hst t' (Or.inr hmem)

lemma applyLostMatch_C4 {s : TrackSettings} {now : ℚ} {mt : Option ℚ}
    {det : Det} {a : AssocState} {lid : String} {a' : AssocState} {k : String}
    (hid : ∀ k' t, (k', t) ∈ a.lostTracks → t.id = k')
    (hcls : ∀ t, mapGet a.lostTracks lid = some t → t.className = det.className)
    (hconf : ConfInv s a.tracks a.lostTracks)
    (hst : StickyP k a.tracks a.lostTracks)
    (h : applyLostMatch now (s.minConfirmationFrames det.className) mt det a lid = .ok a') :
    ConfInv s a'.tracks a'.lostTracks ∧ StickyP k a'.tracks a'.lostTracks ∧
      a'.nextTrackId = a.nextTrackId := by
  rw [applyLostMatch] at h
  cases hg : mapGet a.lostTracks lid with
  | none =>
    simp only [hg, Except.ok.injEq] at h
    subst h
    exact ⟨hconf, hst, rfl⟩
  | some track =>
    simp only [hg] at h
    cases hd2 : centroidDist2 track.boundingBox det.boundingBox with
    | error e =>
      simp only [hd2] at h
      exact absurd h (by simp)
    | ok d2 =>
      simp only [hd2, Except.ok.injEq] at h
      subst h
      have hclass : track.className = det.className := hcls track hg
      have htrackconf : ConfOK s track :=
        hconf lid track (Or.inr (mapGet_mem hg))
      have htid : track.id = lid := hid lid track (mapGet_mem hg)
      refine ⟨?_, ?_, rfl⟩
      · intro k' t' hmem
        rcases hmem with hmem | hmem
        · rcases mapSet_mem hmem with h1 | h2
          · exact hconf k' t' (Or.inl h1)
          · cases h2
            exact revived_finish_ConfOK
        · exact hconf k' t' (Or.inr (mapDelete_subset hmem))
      · intro t' hmem
        rcases hmem with hmem | hmem
        · rcases mapSet_mem hmem with h1 | h2
          · exact hst t' (Or.inl h1)
          · cases h2
            have hactive : track.active = true := by
              apply hst track
              right
              have hkid : (revivedTrackUpdate now
                  (s.minConfirmationFrames det.className) mt det track d2).id = lid := htid
              rw [hkid]
              exact mapGet_mem hg
            exact revived_finish_active htrackconf hclass hactive
        · exact hst t' (Or.inr (mapDelete_subset hmem))

lemma createTrack_C4 {s : TrackSettings} {now : ℚ} {det : Det}
    {a : AssocState} {k : String}
    (hconf : ConfInv s a.tracks a.lostTracks)
    (hst : StickyP k a.tracks a.lostTracks)
    (hk : ∃ j, j < a.nextTrackId ∧ k = toString36 j) :
    ConfInv s (createTrack now (s.minConfirmationFrames det.className) det a).tracks
      (createTrack now (s.minConfirmationFrames det.className) det a).lostTracks ∧
    StickyP k (createTrack now (s.minConfirmationFrames det.className) det a).tracks
      (createTrack now (s.minConfirmationFrames det.className) det a).lostTracks ∧
    (createTrack now (s.minConfirmationFrames det.className) det a).nextTrackId =
      a.nextTrackId + 1 := by
  have hkne : toString36 a.nextTrackId ≠ k := by
    obtain ⟨j, hj, hkj⟩ := hk
    intro he
    rw [hkj] at he
    have := toString36_injective he
    omega
  refine ⟨?_, ?_, rfl⟩
  · intro k' t' hmem
    rcases hmem with hmem | hmem
    · rcases mapSet_mem hmem with h1 | h2
      · exact hconf k' t' (Or.inl h1)
      · cases h2
        exact newTrack_ConfOK
    · exact hconf k' t' (Or.inr hmem)
  · intro t' hmem
    rcases hmem with hmem | hmem
    · rcases mapSet_mem hmem with h1 | h2
      · exact hst t' (Or.inl h1)
      · exact absurd (congrArg Prod.fst h2).symm hkne
    · exact hst t' (Or.inr hmem)

lemma tryLostThenNew_C4 {s : TrackSettings} {now : ℚ} {det : Det}
    {a a' : AssocState} {k : String}
    (hinv : MapsInv a.tracks a.lostTracks a.nextTrackId)
    (hconf : ConfInv s a.tracks a.lostTracks)
    (hst : StickyP k a.tracks a.lostTracks)
    (hk : ∃ j, j < a.nextTrackId ∧ k = toString36 j)
    (h : tryLostThenNew (some s) now (s.minConfirmationFrames det.className)
        (s.movementThreshold det.className) det a = .ok a') :
    ConfInv s a'.tracks a'.lostTracks ∧ StickyP k a'.tracks a'.lostTracks ∧
      a.nextTrackId ≤ a'.nextTrackId := by
  rw [tryLostThenNew] at h
  cases hm : matchWithLostTracks (some s) a.lostTracks det with
  | error e =>
    simp only [hm] at h
    exact absurd h (by simp)
  | ok lostMatchId =>
    simp only [hm] at h
    cases lostMatchId with
    | none =>
      simp only [Except.ok.injEq] at h
      subst h
      obtain ⟨h1, h2, h3⟩ := @createTrack_C4 s now det a k hconf hst hk
      exact ⟨h1, h2, by omega⟩
    | some lid =>
      dsimp only at h
      by_cases hass : lid ∈ a.assignedTracks
      · rw [if_pos hass] at h
        simp only [Except.ok.injEq] at h
        subst h
        obtain ⟨h1, h2, h3⟩ := @createTrack_C4 s now det a k hconf hst hk
        exact ⟨h1, h2, by omega⟩
      · rw [if_neg hass] at h
        have hcls : ∀ t, mapGet a.lostTracks lid = some t →
            t.className = det.className := by
          simp only [matchWithLostTracks, jsIndexSettings] at hm
          rcases matchLostLoop_some_class hm with ⟨t0, hmem0, hcl0⟩ | hbad
          · intro t hg
            have hg0 : mapGet a.lostTracks lid = some t0 :=
              mem_mapGet hmem0 hinv.nodupLost
            rw [hg0, Option.some.injEq] at hg
            rw [← hg]
            exact hcl0
          · exact absurd hbad (by simp)
        obtain ⟨h1, h2, h3⟩ := applyLostMatch_C4 hinv.idLost hcls hconf hst h
        exact ⟨h1, h2, by omega⟩

lemma processOneDet_C4 {s : TrackSettings} {now : ℚ} {a a' : AssocState}
    {det : Det} {k : String}
    (hinv : MapsInv a.tracks a.lostTracks a.nextTrackId)
    (hconf : ConfInv s a.tracks a.lostTracks)
    (hst : StickyP k a.tracks a.lostTracks)
    (hk : ∃ j, j < a.nextTrackId ∧ k = toString36 j)
    (h : processOneDet (some s) now a det = .ok a') :
    ConfInv s a'.tracks a'.lostTracks ∧ StickyP k a'.tracks a'.lostTracks ∧
      a.nextTrackId ≤ a'.nextTrackId := by
  rw [processOneDet] at h
  cases hm : matchWithActiveTracks (some s) a.tracks det with
  | error e =>
    simp only [hm] at h
    exact absurd h (by simp)
  | ok matchId =>
    simp only [hm, jsIndexSettings] at h
    cases matchId with
    | none => exact tryLostThenNew_C4 hinv hconf hst hk h
    | some tid =>
      dsimp only at h
      by_cases hass : tid ∈ a.assignedTracks
      · rw [if_pos hass] at h
        exact tryLostThenNew_C4 hinv hconf hst hk h
      · rw [if_neg hass] at h
        have hcls : ∀ t, mapGet a.tracks tid = some t →
            t.className = det.className := by
          rw [matchWithActiveTracks] at hm
          rcases matchActiveLoop_some_class hm with ⟨t0, hmem0, hcl0⟩ | hbad
          · intro t hg
            have hg0 : mapGet a.tracks tid = some t0 :=
              mem_mapGet hmem0 hinv.nodupTracks
            rw [hg0, Option.some.injEq] at hg
            rw [← hg]
            exact hcl0
          · exact absurd hbad (by simp)
        obtain ⟨h1, h2, h3⟩ := applyActiveMatch_C4 hcls hconf hst h
        exact ⟨h1, h2, by omega⟩

lemma processList_C4 {s : TrackSettings} {now : ℚ} {k : String} :
    ∀ {dets : List Det} {a a' : AssocState},
      MapsInv a.tracks a.lostTracks a.nextTrackId →
      ConfInv s a.tracks a.lostTracks →
      StickyP k a.tracks a.lostTracks →
      (∃ j, j < a.nextTrackId ∧ k = toString36 j) →
      dets.foldlM (processOneDet (some s) now) a = .ok a' →
      ConfInv s a'.tracks a'.lostTracks ∧ StickyP k a'.tracks a'.lostTracks ∧
        a.nextTrackId ≤ a'.nextTrackId
  | [], a, a', hinv, hconf, hst, hk, h => by
    simp only [List.foldlM_nil] at h
    cases h
    exact ⟨hconf, hst, le_refl _⟩
  | det :: rest, a, a', hinv, hconf, hst, hk, h => by
    rw [List.foldlM_cons] at h
    cases hstep : processOneDet (some s) now a det with
    | error e =>
      rw [hstep] at h
      simp [bind, Except.bind] at h
    | ok a1 =>
      rw [hstep] at h
      simp only [bind, Except.bind] at h
      obtain ⟨h1, h2, h3⟩ := processOneDet_C4 hinv hconf hst hk hstep
      have hinv1 : MapsInv a1.tracks a1.lostTracks a1.nextTrackId :=
        processOneDet_inv hinv hstep
      have hk1 : ∃ j, j < a1.nextTrackId ∧ k = toString36 j := by
        obtain ⟨j, hj, he⟩ := hk
        exact ⟨j, by omega, he⟩
      obtain ⟨g1, g2, g3⟩ := processList_C4 hinv1 h1 h2 hk1 h
      exact ⟨g1, g2, by omega⟩

lemma applyMissFold_pred {mx : ℕ} {upd : List String}
    {P : String → TrackedObject → Prop}
    (hkeep : ∀ k t, P k t → P k { t with misses := t.misses + 1, movement := { t.movement with moving := false } })
    (hlost : ∀ k t, P k t → P k { t with misses := t.misses + 1, lostFrames := 0 }) :
    ∀ {rem : TrackMap} {acc : TrackMap × TrackMap},
      (∀ k t, (k, t) ∈ rem → t.id = k) →
      (∀ k t, (k, t) ∈ acc.1 ∨ (k, t) ∈ acc.2 → P k t) →
      (∀ k t, (k, t) ∈ rem → P k t) →
      ∀ k t, ((k, t) ∈ (rem.foldl (applyMissOne mx upd) acc).1 ∨
              (k, t) ∈ (rem.foldl (applyMissOne mx upd) acc).2) → P k t
  | [], acc, _, hacc, _, k, t, h => hacc k t h
  | (k0, t0) :: rem, acc, hid, hacc, hrem, k, t, h => by
    rw [List.foldl_cons] at h
    have hkid : t0.id = k0 := hid k0 t0 (List.mem_cons_self _ _)
    have htl_id : ∀ k' t', (k', t') ∈ rem → t'.id = k' :=
      fun k' t' hm => hid k' t' (List.mem_cons_of_mem _ hm)
    have htl_p : ∀ k' t', (k', t') ∈ rem → P k' t' :=
      fun k' t' hm => hrem k' t' (List.mem_cons_of_mem _ hm)
    have hp0 : P k0 t0 := hrem k0 t0 (List.mem_cons_self _ _)
    by_cases hupd : k0 ∈ upd
    · have hstep : applyMissOne mx upd acc (k0, t0) =
          (acc.1 ++ [(k0, t0)], acc.2) := by
        rw [applyMissOne]
        simp [hupd]
      rw [hstep] at h
      refine applyMissFold_pred hkeep hlost htl_id ?_ htl_p k t h
      intro k' t' hm
      rcases hm with hm | hm
      · rcases List.mem_append.mp hm with hm1 | hm1
        · exact hacc k' t' (Or.inl hm1)
        · simp only [List.mem_singleton, Prod.mk.injEq] at hm1
          obtain ⟨he1, he2⟩ := hm1
          subst he1
          subst he2
          exact hp0
      · exact hacc k' t' (Or.inr hm)
    · by_cases hmiss : mx ≤ t0.misses + 1
      · have hstep : applyMissOne mx upd acc (k0, t0) =
            (acc.1, mapSet acc.2 k0
              { t0 with misses := t0.misses + 1, lostFrames := 0 }) := by
          rw [applyMissOne]
          simp [hupd, hmiss, hkid]
        rw [hstep] at h
        refine applyMissFold_pred hkeep hlost htl_id ?_ htl_p k t h
        intro k' t' hm
        rcases hm with hm | hm
        · exact hacc k' t' (Or.inl hm)
        · rcases mapSet_mem hm with hm1 | hm1
          · exact hacc k' t' (Or.inr hm1)
          · simp only [Prod.mk.injEq] at hm1
            obtain ⟨he1, he2⟩ := hm1
            subst he1
            subst he2
            exact hlost _ t0 hp0
      · have hstep : applyMissOne mx upd acc (k0, t0) = (acc.1 ++ [(k0, { t0 with misses := t0.misses + 1, movement := { t0.movement with moving := false } })], acc.2) := by
          rw [applyMissOne]
          simp [hupd, hmiss]
        rw [hstep] at h
        refine applyMissFold_pred hkeep hlost htl_id ?_ htl_p k t h
        intro k' t' hm
        rcases hm with hm | hm
        · rcases List.mem_append.mp hm with hm1 | hm1
          · exact hacc k' t' (Or.inl hm1)
          · simp only [List.mem_singleton, Prod.mk.injEq] at hm1
            obtain ⟨he1, he2⟩ := hm1
            subst he1
            subst he2
            exact hkeep _ t0 hp0
        · exact hacc k' t' (Or.inr hm)

lemma applyMisses_C4 {mx : ℕ} {upd : List String} {s : TrackSettings}
    {k : String} {tracks lostTracks : TrackMap}
    (hid : ∀ k' t, (k', t) ∈ tracks → t.id = k')
    (hconf : ConfInv s tracks lostTracks)
    (hst : StickyP k tracks lostTracks) :
    ConfInv s (applyMisses mx upd tracks lostTracks).1
      (applyMisses mx upd tracks lostTracks).2 ∧
    StickyP k (applyMisses mx upd tracks lostTracks).1
      (applyMisses mx upd tracks lostTracks).2 := by
  constructor
  · intro k' t' hm
    refine applyMissFold_pred (P := fun _ t => ConfOK s t)
      ?_ ?_ hid ?_ ?_ k' t' hm
    · intro k1 t1 hp ha
      exact hp ha
    · intro k1 t1 hp ha
      exact hp ha
    · intro k1 t1 hm1
      rcases hm1 with hm1 | hm1
      · exact absurd hm1 (List.not_mem_nil _)
      · exact hconf k1 t1 (Or.inr hm1)
    · intro k1 t1 hm1
      exact hconf k1 t1 (Or.inl hm1)
  · intro t' hm
    refine applyMissFold_pred (P := fun k1 t => k1 = k → t.active = true)
      ?_ ?_ hid ?_ ?_ k t' hm rfl
    · intro k1 t1 hp he
      exact hp he
    · intro k1 t1 hp he
      exact hp he
    · intro k1 t1 hm1 he
      subst he
      rcases hm1 with hm1 | hm1
      · exact absurd hm1 (List.not_mem_nil _)
      · exact hst t1 (Or.inr hm1)
    · intro k1 t1 hm1 he
      subst he
      exact hst t1 (Or.inl hm1)

lemma cleanupLost_C4 {mx : ℕ} {s : TrackSettings} {k : String}
    {tracks lostTracks : TrackMap}
    (hconf : ConfInv s tracks lostTracks)
    (hst : StickyP k tracks lostTracks) :
    ConfInv s tracks (cleanupLost mx lostTracks) ∧
    StickyP k tracks (cleanupLost mx lostTracks) := by
  constructor
  · intro k' t' hm
    rcases hm with hm | hm
    · exact hconf k' t' (Or.inl hm)
    · rcases cleanupFold_mem hm with hacc | ⟨t0, ht0, he⟩
      · exact absurd hacc (List.not_mem_nil _)
      · have h0 : ConfOK s t0 := hconf k' t0 (Or.inr ht0)
        have he' : t' = { t0 with lostFrames := t0.lostFrames + 1 } := he
        rw [he']
        intro ha
        exact h0 ha
  · intro t' hm
    rcases hm with hm | hm
    · exact hst t' (Or.inl hm)
    · rcases cleanupFold_mem hm with hacc | ⟨t0, ht0, he⟩
      · exact absurd hacc (List.not_mem_nil _)
      · have h0 : t0.active = true := hst t0 (Or.inr ht0)
        have he' : t' = { t0 with lostFrames := t0.lostFrames + 1 } := he
        rw [he']
        exact h0

lemma update_C4 {st : TrackerState} {detected : Detected} {now : ℚ}
    {r : FrameResult} {st' : TrackerState} {s : TrackSettings} {k : String}
    (hs : st.session = some s)
    (hinv : MapsInv st.tracks st.lostTracks st.nextTrackId)
    (hconf : ConfInv s st.tracks st.lostTracks)
    (hst : StickyP k st.tracks st.lostTracks)
    (hk : ∃ j, j < st.nextTrackId ∧ k = toString36 j)
    (h : ObjectTracker.update st detected false now = .ok (r, st')) :
    st'.session = some s ∧
    ConfInv s st'.tracks st'.lostTracks ∧
    StickyP k st'.tracks st'.lostTracks ∧
    (∃ j, j < st'.nextTrackId ∧ k = toString36 j) := by
  rw [ObjectTracker.update] at h
  cases hpre : prefilterDetections (detected.detections.getD [])
      detected.inputDimensions st.session with
  | error e =>
    simp only [hpre] at h
    exact absurd h (by simp)
  | ok detections =>
    simp only [hpre, Bool.false_eq_true, if_false] at h
    cases hproc : processWithIOU st.session now st.tracks st.lostTracks
        st.nextTrackId detections with
    | error e =>
      simp only [hproc] at h
      exact absurd h (by simp)
    | ok a =>
      simp only [hproc, Except.ok.injEq, Prod.mk.injEq] at h
      rw [← h.2]
      have hproc' : processWithIOU (some s) now st.tracks st.lostTracks
          st.nextTrackId detections = .ok a := by
        rw [← hs]
        exact hproc
      rw [processWithIOU] at hproc'
      obtain ⟨hconfA, hstA, hnA⟩ := processList_C4
        (a := { tracks := st.tracks, lostTracks := st.lostTracks,
                nextTrackId := st.nextTrackId, assignedTracks := [],
                updatedTrackIds := [], newlyConfirmedIds := [] })
        hinv hconf hst hk hproc'
      have hainv : MapsInv a.tracks a.lostTracks a.nextTrackId :=
        processWithIOU_inv hinv hproc
      obtain ⟨hconfM, hstM⟩ := @applyMisses_C4 st.maxMisses
        a.updatedTrackIds s k _ _ hainv.idTracks hconfA hstA
      obtain ⟨hconfL, hstL⟩ := @cleanupLost_C4 st.maxLostFrames s k _ _
        hconfM hstM
      refine ⟨hs, hconfL, hstL, ?_⟩
      obtain ⟨j, hj, he⟩ := hk
      exact ⟨j, by simpa using Nat.lt_of_lt_of_le hj hnA, he⟩

/-- Claim C4: confirmation is sticky.  Starting from a session state whose
settings are fixed, whose maps satisfy the structural invariant, whose
confirmed tracks all meet their class's (possibly falsy)
`minConfirmationFrames`, and in which every track stored under key `k` has
`active = true`, after any sequence of `update` calls every track still
stored under `k` (in `tracks` or in `lostTracks`) has `active = true` —
even though lost-track revival recomputes `active` from scratch. -/
theorem claim_C4 {s : TrackSettings} {k : String} :
    ∀ {frames : List (Detected × ℚ)} {st st' : TrackerState},
      st.session = some s →
      MapsInv st.tracks st.lostTracks st.nextTrackId →
      ConfInv s st.tracks st.lostTracks →
      (∃ j, j < st.nextTrackId ∧ k = toString36 j) →
      (∀ t, ((k, t) ∈ st.tracks ∨ (k, t) ∈ st.lostTracks) → t.active = true) →
      updateMany st frames = .ok st' →
      ∀ t, ((k, t) ∈ st'.tracks ∨ (k, t) ∈ st'.lostTracks) → t.active = true
  | [], st, st', hs, hinv, hconf, hk, hact, h => by
    simp only [updateMany, Except.ok.injEq] at h
    subst h
    exact hact
  | (d, now) :: rest, st, st', hs, hinv, hconf, hk, hact, h => by
    rw [updateMany] at h
    cases hu : ObjectTracker.update st d false now with
    | error e =>
      simp only [hu] at h
      exact absurd h (by simp)
    | ok p =>
      obtain ⟨r, st1⟩ := p
      simp only [hu] at h
      obtain ⟨hs1, hconf1, hst1, hk1⟩ := update_C4 hs hinv hconf hact hk hu
      exact claim_C4 hs1 (update_inv hinv hu) hconf1 hk1 hst1 h

/-- Witness for C4: a concretely confirmed `"person"` track keyed `"1"`
(5 hits against `minConfirmationFrames = 3`) goes through one concrete
`update` call with an empty frame — which increments its misses — and is
still `active`. -/
theorem claim_C4_witness : c4TrackAfter.active = true :=
  @claim_C4 sampleSettings "1" c4Frames c4St c4StAfter rfl
    (by
      refine ⟨?_, ?_, ?_, ?_, ?_, ?_, ?_⟩
      · intro k t h
        simp only [c4St, List.mem_singleton, Prod.mk.injEq] at h
        rw [h.1, h.2]
        rfl
      · intro k t h
        exact absurd h (List.not_mem_nil _)
      · simp [c4St, c4Track]
      · simp [c4St, mkObjectTracker]
      · intro k hk
        simp [c4St, mkObjectTracker]
      · intro k hk
        simp only [c4St, c4Track, List.map_cons, List.map_nil,
          List.mem_singleton] at hk
        exact ⟨1, by decide, by rw [hk]; rfl⟩
      · intro k hk
        simp [c4St, mkObjectTracker] at hk)
    (by
      intro k t h
      rcases h with h | h
      · simp only [c4St, List.mem_singleton, Prod.mk.injEq] at h
        rw [h.2]
        intro _
        left
        rw [c4Track]
        simp only [jsGeNatOpt, sampleSettings]
        norm_num
      · exact absurd h (List.not_mem_nil _))
    ⟨1, by decide, rfl⟩
    (by
      intro t h
      rcases h with h | h
      · simp only [c4St, List.mem_singleton, Prod.mk.injEq] at h
        rw [h.2]
        rfl
      · exact absurd h (List.not_mem_nil _))
    (by rfl)
    c4TrackAfter
    (Or.inl (by simp [c4StAfter]))

lemma jsSetOfList_foldl_mem {α : Type} [DecidableEq α] :
    ∀ {l acc : List α} {x : α}, x ∈ acc ∨ x ∈ l →
      x ∈ l.foldl (fun acc x => if x ∈ acc then acc else acc ++ [x]) acc
  | [], acc, x, h => by
    rcases h with h | h
    · exact h
    · exact absurd h (List.not_mem_nil _)
  | a :: l, acc, x, h => by
    rw [List.foldl_cons]
    apply jsSetOfList_foldl_mem (α := α)
    rcases h with h | h
    · left
      split
      · exact h
      · exact List.mem_append_left _ h
    · rcases List.mem_cons.mp h with he | hm
      · subst he
        left
        split
        · assumption
        · exact List.mem_append_right _ (List.mem_singleton_self _)
      · exact Or.inr hm

lemma mem_jsSetOfList {α : Type} [DecidableEq α] {l : List α} {x : α}
    (h : x ∈ l) : x ∈ jsSetOfList l :=
  jsSetOfList_foldl_mem (Or.inr h)

lemma addMotionEntries_none_id (l : List Det) :
    ∃ d ∈ addMotionEntries l, d.id = none := by
  rw [addMotionEntries]
  split
  · exact ⟨_, List.mem_singleton_self _, rfl⟩
  · rename_i hne
    cases l with
    | nil => exact absurd rfl hne
    | cons d0 l0 =>
      exact ⟨_, List.mem_map_of_mem _ (List.mem_cons_self _ _), rfl⟩

lemma buildActiveTracks_none_id (m : TrackMap) :
    none ∈ ((buildActiveTracks m).1.map (fun d => d.id)) := by
  rw [buildActiveTracks]
  obtain ⟨d, hd, hid⟩ := addMotionEntries_none_id
    ((m.foldl (fun (ap : List Det × List Det) e =>
      if e.2.active then (ap.1 ++ [trackOut e.2], ap.2)
      else (ap.1, ap.2 ++ [trackOut e.2])) ([], [])).1)
  rw [← hid]
  exact List.mem_map_of_mem _ (List.mem_append_right _ hd)

/-- Claim C10: after every non-basic `update` call, the stored
`lastActiveIds` contains the sentinel's undefined id and in particular is
non-empty (`buildActiveTracks` always appends at least one id-less motion
entry to `active`), so the scene-change disjunct comparing an empty previous
id set with a non-empty current one reduces to "the previous id set was
empty", which holds on a session's first call (a fresh tracker has
`lastActiveIds = []`) and never on any later one. -/
theorem claim_C10 (st : TrackerState) (detected : Detected) (now : ℚ)
    (r : FrameResult) (st' : TrackerState)
    (h : ObjectTracker.update st detected false now = .ok (r, st')) :
    st'.lastActiveIds ≠ [] ∧ none ∈ st'.lastActiveIds ∧
    ((st.lastActiveIds.isEmpty && !st'.lastActiveIds.isEmpty) =
      st.lastActiveIds.isEmpty) ∧
    (∀ sid settings, (mkObjectTracker sid settings).lastActiveIds = []) := by
  rw [ObjectTracker.update] at h
  cases hpre : prefilterDetections (detected.detections.getD [])
      detected.inputDimensions st.session with
  | error e =>
    simp only [hpre] at h
    exact absurd h (by simp)
  | ok detections =>
    simp only [hpre, Bool.false_eq_true, if_false] at h
    cases hproc : processWithIOU st.session now st.tracks st.lostTracks
        st.nextTrackId detections with
    | error e =>
      simp only [hproc] at h
      exact absurd h (by simp)
    | ok a =>
      simp only [hproc, Except.ok.injEq, Prod.mk.injEq] at h
      have hids : st'.lastActiveIds = jsSetOfList
          (((buildActiveTracks (applyMisses st.maxMisses a.updatedTrackIds
            a.tracks a.lostTracks).1).1).map (fun d => d.id)) := by
        rw [← h.2]
      have hmem : none ∈ st'.lastActiveIds := by
        rw [hids]
        exact mem_jsSetOfList (buildActiveTracks_none_id _)
      have hne : st'.lastActiveIds ≠ [] := by
        intro he
        rw [he] at hmem
        exact absurd hmem (List.not_mem_nil _)
      refine ⟨hne, hmem, ?_, fun sid settings => rfl⟩
      have hempty : st'.lastActiveIds.isEmpty = false := by
        cases hl : st'.lastActiveIds with
        | nil => exact absurd hl hne
        | cons x xs => rfl
      rw [hempty]
      cases st.lastActiveIds.isEmpty <;> rfl

/-- Witness for C10: one concrete non-basic `update` call on a fresh tracker
stores `lastActiveIds = [none]` — non-empty and containing the sentinel's
undefined id. -/
theorem claim_C10_witness :
    c10StAfter.lastActiveIds ≠ [] ∧ none ∈ c10StAfter.lastActiveIds ∧
    ((c10St.lastActiveIds.isEmpty && !c10StAfter.lastActiveIds.isEmpty) =
      c10St.lastActiveIds.isEmpty) ∧
    (∀ sid settings, (mkObjectTracker sid settings).lastActiveIds = []) :=
  claim_C10 c10St c10Detected 0 c10Res c10StAfter (by rfl)

/-- Claim C2: refuted on a concrete run (code bug).  With
`minConfirmationFrames = 2`, the same `"person"` detection on two
consecutive frames (1 s apart) leaves track `"1"` unconfirmed after frame 1
(`active = false`, `hits = 1`; frame 1 emits `"ab-0"` by the empty-previous
condition (b) and stores `lastActiveIds = [none]`) and newly confirms it on
frame 2 (`active` flips to `true` as
`hits` reaches `2`) — yet frame 2 returns `detectionId = undefined`:
condition (a) never fires because line 469 sets `track.active` before line
473 tests `!track.active`, so `newlyConfirmedIds` stays empty, and (b), (c),
(d) are all false (`lastActiveIds` is unchanged and only 1 s elapsed). -/
theorem claim_C2 : c2Probe =
    .ok (some (false, 1), some "ab-0", [none],
         some (true, 2), none, [some "1", none]) := by
  with_unfolding_all rfl

lemma matchActiveLoop_max {st : TrackSettings} {det : Det} :
    ∀ {l : TrackMap} {best : Option String} {b : ℚ} {r : Option String},
      matchActiveLoop (some st) det l best b = .ok r →
      (r = best ∧ (∀ k t, (k, t) ∈ l → t.className = det.className →
        ∀ j, candIoU det t = some j →
          jsGtQOpt j (st.iouThreshold det.className) = true → j ≤ b)) ∨
      (∃ tid t l1 l2 i, r = some tid ∧ l = l1 ++ (tid, t) :: l2 ∧
        t.className = det.className ∧ candIoU det t = some i ∧
        jsGtQOpt i (st.iouThreshold det.className) = true ∧ b < i ∧
        (∀ k' t', (k', t') ∈ l1 → t'.className = det.className →
          ∀ j, candIoU det t' = some j →
            jsGtQOpt j (st.iouThreshold det.className) = true → j < i) ∧
        (∀ k' t', (k', t') ∈ l2 → t'.className = det.className →
          ∀ j, candIoU det t' = some j →
            jsGtQOpt j (st.iouThreshold det.className) = true → j ≤ i))
  | [], best, b, r, h => by
    simp only [matchActiveLoop, Except.ok.injEq] at h
    subst h
    exact Or.inl ⟨rfl, fun k t hm => absurd hm (List.not_mem_nil _)⟩
  | (k0, t0) :: rest, best, b, r, h => by
    simp only [matchActiveLoop] at h
    by_cases hcl : t0.className = det.className
    · rw [if_pos hcl] at h
      cases hdb : det.boundingBox with
      | none =>
        simp only [hdb] at h
        cases htb : t0.boundingBox <;> simp [htb] at h
      | some db =>
        cases htb : t0.boundingBox with
        | none =>
          simp only [hdb, htb] at h
          exact absurd h (by simp)
        | some tb =>
          simp only [hdb, htb, jsIndexSettings, hcl] at h
          have hce : candIoU det t0 = calculateIoU db tb := by
            rw [candIoU]
            simp only [hdb, htb]
          cases hiou : calculateIoU db tb with
          | none =>
            simp only [hiou] at h
            rcases matchActiveLoop_max h with ⟨hr, hno⟩ | hB
            · refine Or.inl ⟨hr, ?_⟩
              intro k t hm hc j hj
              rcases List.mem_cons.mp hm with he | hm
              · cases he
                rw [hce, hiou] at hj
                exact absurd hj (by simp)
              · exact hno k t hm hc j hj
            · obtain ⟨tid, t, l1, l2, i, hr, hsplit, h3, h4, h5, h6, h7, h8⟩ := hB
              refine Or.inr ⟨tid, t, (k0, t0) :: l1, l2, i, hr, ?_, h3, h4, h5, h6, ?_, h8⟩
              · rw [hsplit]
                rfl
              · intro k' t' hm hc j hj
                rcases List.mem_cons.mp hm with he | hm
                · cases he
                  rw [hce, hiou] at hj
                  exact absurd hj (by simp)
                · exact h7 k' t' hm hc j hj
          | some iou =>
            simp only [hiou] at h
            by_cases hcond : (jsGtQOpt iou (st.iouThreshold det.className) &&
                decide (b < iou)) = true
            · rw [if_pos hcond] at h
              rw [Bool.and_eq_true, decide_eq_true_eq] at hcond
              rcases matchActiveLoop_max h with ⟨hr, hno⟩ | hB
              · refine Or.inr ⟨k0, t0, [], rest, iou, hr, rfl, hcl, ?_, hcond.1,
                  hcond.2, fun k' t' hm => absurd hm (List.not_mem_nil _), ?_⟩
                · rw [hce, hiou]
                · intro k' t' hm hc j hj hthr
                  exact hno k' t' hm hc j hj hthr
              · obtain ⟨tid, t, l1, l2, i, hr, hsplit, h3, h4, h5, h6, h7, h8⟩ := hB
                refine Or.inr ⟨tid, t, (k0, t0) :: l1, l2, i, hr, ?_, h3, h4, h5,
                  lt_trans hcond.2 h6, ?_, h8⟩
                · rw [hsplit]
                  rfl
                · intro k' t' hm hc j hj hthr
                  rcases List.mem_cons.mp hm with he | hm
                  · cases he
                    rw [hce, hiou, Option.some.injEq] at hj
                    rw [← hj]
                    exact h6
                  · exact h7 k' t' hm hc j hj hthr
            · rw [if_neg hcond] at h
              have hskip : jsGtQOpt iou (st.iouThreshold det.className) = true →
                  iou ≤ b := by
                intro hthr
                by_contra hlt
                push_neg at hlt
                exact hcond (by rw [Bool.and_eq_true, decide_eq_true_eq]; exact ⟨hthr, hlt⟩)
              rcases matchActiveLoop_max h with ⟨hr, hno⟩ | hB
              · refine Or.inl ⟨hr, ?_⟩
                intro k t hm hc j hj hthr
                rcases List.mem_cons.mp hm with he | hm
                · cases he
                  rw [hce, hiou, Option.some.injEq] at hj
                  rw [← hj] at hthr ⊢
                  exact hskip hthr
                · exact hno k t hm hc j hj hthr
              · obtain ⟨tid, t, l1, l2, i, hr, hsplit, h3, h4, h5, h6, h7, h8⟩ := hB
                refine Or.inr ⟨tid, t, (k0, t0) :: l1, l2, i, hr, ?_, h3, h4, h5, h6, ?_, h8⟩
                · rw [hsplit]
                  rfl
                · intro k' t' hm hc j hj hthr
                  rcases List.mem_cons.mp hm with he | hm
                  · cases he
                    rw [hce, hiou, Option.some.injEq] at hj
                    rw [← hj] at hthr ⊢
                    exact lt_of_le_of_lt (hskip hthr) h6
                  · exact h7 k' t' hm hc j hj hthr
    · rw [if_neg hcl] at h
      rcases matchActiveLoop_max h with ⟨hr, hno⟩ | hB
      · refine Or.inl ⟨hr, ?_⟩
        intro k t hm hc j hj
        rcases List.mem_cons.mp hm with he | hm
        · cases he
          exact absurd hc hcl
        · exact hno k t hm hc j hj
      · obtain ⟨tid, t, l1, l2, i, hr, hsplit, h3, h4, h5, h6, h7, h8⟩ := hB
        refine Or.inr ⟨tid, t, (k0, t0) :: l1, l2, i, hr, ?_, h3, h4, h5, h6, ?_, h8⟩
        · rw [hsplit]
          rfl
        · intro k' t' hm hc j hj
          rcases List.mem_cons.mp hm with he | hm
          · cases he
            exact absurd hc hcl
          · exact h7 k' t' hm hc j hj

/-- Claim C3 (amended): `matchWithActiveTracks` selects, over ALL current
tracks — including ones already assigned this frame — the same-class track
whose IoU with the detection is positive and strictly exceeds the class's
`iouThreshold` and is maximal, ties broken by track insertion order
(strictly earlier candidates are strictly smaller, later ones no larger);
and when that best track is already assigned, `processOneDet` does not try
the next-best unassigned track: it falls through directly to the lost pool
and then to allocating a new track (`tryLostThenNew`). -/
theorem claim_C3 :
    (∀ (st : TrackSettings) (det : Det) (l : TrackMap) (r : Option String),
      matchWithActiveTracks (some st) l det = .ok r →
      ActiveArgmax st det l r) ∧
    (∀ (st : TrackSettings) (now : ℚ) (a : AssocState) (det : Det)
        (tid : String),
      matchWithActiveTracks (some st) a.tracks det = .ok (some tid) →
      tid ∈ a.assignedTracks →
      processOneDet (some st) now a det =
        tryLostThenNew (some st) now (st.minConfirmationFrames det.className)
          (st.movementThreshold det.className) det a) := by
  constructor
  · intro st det l r h
    rw [matchWithActiveTracks] at h
    exact matchActiveLoop_max h
  · intro st now a det tid h hass
    rw [processOneDet]
    simp only [h, jsIndexSettings]
    rw [if_pos hass]

/-- Counterexample for C3 as stated: with threshold `1/4` and two `"person"`
tracks `"1"` (box `[0,0,10,10]`) and `"2"` (box `[0,0,14,10]`), after the
first detection assigns `"1"`, the second detection (box `[0,0,11,10]`) has
IoU `11/14 > 1/4` with the unassigned track `"2"` — the spec says it must be
matched to `"2"` — but the code's best-over-all-tracks pick is the already
assigned `"1"` (IoU `10/11`), so it falls through and allocates a new track
`"3"`, leaving `"2"` unmatched. -/
theorem claim_C3_cex :
    matchWithActiveTracks (some c3Settings) c3Tracks c3Det2 =
      .ok (some "1") ∧
    candIoU c3Det2 c3TrackB = some (11 / 14) ∧
    c3TrackB.className = c3Det2.className ∧
    jsGtQOpt (11 / 14) (c3Settings.iouThreshold c3Det2.className) = true ∧
    (processWithIOU (some c3Settings) 0 c3Tracks [] 3 [c3Det1, c3Det2]).map
        (fun a => (a.tracks.map Prod.fst, a.updatedTrackIds,
          a.assignedTracks)) =
      .ok (["1", "2", "3"], ["1", "3"], ["1"]) := by
  refine ⟨?_, ?_, ?_, ?_, ?_⟩
  · with_unfolding_all rfl
  · with_unfolding_all rfl
  · with_unfolding_all rfl
  · with_unfolding_all rfl
  · with_unfolding_all rfl

/-- Witness for C3: at the counterexample input the argmax characterization
holds of the code's pick `"1"`, and with `"1"` assigned the second detection
is processed by the lost-then-new fall-through. -/
theorem claim_C3_witness :
    ActiveArgmax c3Settings c3Det2 c3Tracks (some "1") ∧
    processOneDet (some c3Settings) 0 c3AState c3Det2 =
      tryLostThenNew (some c3Settings) 0
        (c3Settings.minConfirmationFrames c3Det2.className)
        (c3Settings.movementThreshold c3Det2.className) c3Det2 c3AState :=
  ⟨claim_C3.1 c3Settings c3Det2 c3Tracks (some "1") (by with_unfolding_all rfl),
   claim_C3.2 c3Settings 0 c3AState c3Det2 "1" (by with_unfolding_all rfl)
     (List.mem_singleton_self "1")⟩
